import Mathlib

/-
Verification of the prayer-times repository core against its natural-language
specification.

The Go sources are shallowly embedded:
* `time.Time` instants are modelled as an integer count of nanoseconds on a
  single timeline; every instant compared or subtracted in one program run
  carries the same `*time.Location`, so the location offset is a common shift
  that cancels in `After`/`Sub` and is not tracked on the instant itself.
* Fallible Go functions returning `(T, error)` are modelled as `Except String T`
  (or `Option T` when the pointer-or-nil convention is used by the source).
* External collaborators (the Al Adhan HTTP client, `text/template`,
  `os.ReadFile` + `encoding/json`, the IP geolocation call) are passed in as
  explicit function arguments, exactly at the boundary the specification
  draws around them.
-/

namespace PrayerTimes

/-- A prayer event, from `internal/prayer/prayer.go` (`type Prayer struct`):
a name together with its absolute time (`time.Time`, modelled as an integer
nanosecond instant). -/
structure Prayer where
  name : String
  time : Int
deriving Repr, DecidableEq

/-- `NextPrayer` from `internal/prayer/prayer.go`: scans the slice in order and
returns (a pointer to) the first prayer whose `Time.After(now)` holds, i.e.
whose time is strictly greater than `now`; returns `nil` (here `none`) when no
entry qualifies. -/
def NextPrayer : List Prayer → Int → Option Prayer
  | [], _ => none
  | p :: ps, now => if now < p.time then some p else NextPrayer ps now

/-- `NextPrayer` yields `none` exactly when every listed prayer is at or before
`now` (no sortedness needed: the scan inspects every element). -/
theorem nextPrayer_eq_none_iff (ps : List Prayer) (now : Int) :
    NextPrayer ps now = none ↔ ∀ p ∈ ps, p.time ≤ now := by
  induction ps with
  | nil => simp [NextPrayer]
  | cons p ps ih =>
    by_cases h : now < p.time
    · simp only [NextPrayer, if_pos h]
      constructor
      · intro hc
        exact absurd hc (by simp)
      · intro hall
        exact absurd (hall p (List.mem_cons_self p ps)) (by omega)
    · simp only [NextPrayer, if_neg h, ih]
      constructor
      · intro hall q hq
        rw [List.mem_cons] at hq
        rcases hq with rfl | hq
        · omega
        · exact hall q hq
      · intro hall q hq
        exact hall q (List.mem_cons_of_mem p hq)

/-- When `NextPrayer` returns `some p`, then `p` is strictly after `now` and is
the first such element: the list splits as `pre ++ p :: post` with every
element of `pre` at or before `now`. -/
theorem nextPrayer_eq_some (ps : List Prayer) (now : Int) (p : Prayer)
    (h : NextPrayer ps now = some p) :
    now < p.time ∧ ∃ pre post, ps = pre ++ p :: post ∧ ∀ q ∈ pre, q.time ≤ now := by
  induction ps with
  | nil => simp [NextPrayer] at h
  | cons q ps ih =>
    by_cases hq : now < q.time
    · simp only [NextPrayer, if_pos hq, Option.some.injEq] at h
      subst h
      exact ⟨hq, [], ps, rfl, by simp⟩
    · simp only [NextPrayer, if_neg hq] at h
      obtain ⟨h1, pre, post, hsplit, hpre⟩ := ih h
      refine ⟨h1, q :: pre, post, by simp [hsplit], ?_⟩
      intro r hr
      rw [List.mem_cons] at hr
      rcases hr with rfl | hr
      · omega
      · exact hpre r hr

/-- In a list whose times are pairwise non-decreasing, the last element's time
bounds every element's time. -/
theorem time_le_getLast (ps : List Prayer)
    (hs : ps.Pairwise (fun a b => a.time ≤ b.time)) (q : Prayer)
    (hq : ps.getLast? = some q) : ∀ p ∈ ps, p.time ≤ q.time := by
  induction ps with
  | nil => simp at hq
  | cons a ps ih =>
    have hs' : ps.Pairwise (fun a b => a.time ≤ b.time) := List.Pairwise.of_cons hs
    have ha : ∀ x ∈ ps, a.time ≤ x.time :=
      fun x hx => List.rel_of_pairwise_cons hs hx
    cases ps with
    | nil =>
      simp only [List.getLast?_singleton, Option.some.injEq] at hq
      subst hq
      simp
    | cons b t =>
      rw [List.getLast?_cons_cons] at hq
      have hqmem : q ∈ b :: t := by
        obtain ⟨hne, hq2⟩ := List.mem_getLast?_eq_getLast (Option.mem_def.mpr hq)
        exact hq2 ▸ List.getLast_mem hne
      intro p hp
      rw [List.mem_cons] at hp
      rcases hp with rfl | hp
      · exact ha q hqmem
      · exact ih hs' hq p hp

/-- Claim C1: for every list of prayers sorted in canonical (non-decreasing
time) order and every instant `now`, `NextPrayer` returns the first element
whose time is strictly after `now`, and `none` when no element's time is after
`now`; an element whose time equals `now` exactly is never the result, and for
every `now` strictly after the last element's time the result is `none`. -/
theorem C1_nextPrayer_spec (ps : List Prayer) (now : Int)
    (hs : ps.Pairwise (fun a b => a.time ≤ b.time)) :
    (∀ p, NextPrayer ps now = some p →
        now < p.time ∧
        ∃ pre post, ps = pre ++ p :: post ∧ ∀ q ∈ pre, q.time ≤ now)
    ∧ (NextPrayer ps now = none ↔ ∀ p ∈ ps, p.time ≤ now)
    ∧ (∀ p ∈ ps, p.time = now → NextPrayer ps now ≠ some p)
    ∧ (∀ q, ps.getLast? = some q → q.time < now → NextPrayer ps now = none) := by
  refine ⟨fun p hp => nextPrayer_eq_some ps now p hp,
    nextPrayer_eq_none_iff ps now, ?_, ?_⟩
  · intro p _ hpt hsome
    have := (nextPrayer_eq_some ps now p hsome).1
    omega
  · intro q hlast hlt
    rw [nextPrayer_eq_none_iff]
    intro p hp
    have := time_le_getLast ps hs q hlast p hp
    omega

/-- Witness for C1 at a concrete sorted list and a `now` past the last time. -/
theorem C1_witness :
    NextPrayer [⟨"Fajr", 10⟩, ⟨"Dhuhr", 20⟩, ⟨"Isha", 30⟩] 31 = none :=
  (C1_nextPrayer_spec [⟨"Fajr", 10⟩, ⟨"Dhuhr", 20⟩, ⟨"Isha", 30⟩] 31
    (by decide)).2.2.2 ⟨"Isha", 30⟩ (by decide) (by decide)

/-- Nanoseconds per minute (`time.Minute`). -/
def nsPerMinute : Int := 60000000000

/-- Nanoseconds per hour (`time.Hour`). -/
def nsPerHour : Int := 3600000000000

/-! #### IEEE-754 binary64 model for `Duration.Hours` and `Duration.Minutes`

The source computes `int(d.Hours())` and `int(d.Minutes())`. In the Go
standard library, `Duration.Hours` is
`float64(d / Hour) + float64(d % Hour) / (60 * 60 * 1e9)` and
`Duration.Minutes` is the same with the minute unit. Both `int64 → float64`
conversions are exact here (`|d / Hour| < 2^53` and `|d % Hour| < 2^53`), and
the literal divisors are exactly representable, so exactly two operations
round: the division and the addition, each to the nearest `binary64` value
(ties to even). The model below performs that rounding exactly, with a
dyadic rational (`Dyadic`: an integer mantissa `n` scaled by `2^-k`) standing
for the `float64` value; on this domain the results are far from `float64`
overflow and subnormals, so the unbounded-exponent dyadic value coincides with
the IEEE value. `int(x)` on a `float64` truncates toward zero (`truncD`). -/

/-- Floor of `log2` on `Nat` by repeated halving; the fuel (first argument)
only needs to dominate the number of halvings. -/
def nlog2Aux : Nat → Nat → Nat
  | 0, _ => 0
  | fuel + 1, n => if n ≤ 1 then 0 else nlog2Aux fuel (n / 2) + 1

/-- Floor of `log2 n` for `n ≥ 1` (and `0` for `n = 0`). -/
def nlog2 (n : Nat) : Nat := nlog2Aux n n

/-- Decides `2^e ≤ a / b` for the rational `a / b` and an integer exponent
`e`, in integer arithmetic. -/
def pow2le (a b : Nat) (e : Int) : Bool :=
  if 0 ≤ e then decide (b * 2 ^ e.toNat ≤ a) else decide (b ≤ a * 2 ^ (-e).toNat)

/-- Floor of `log2 (a / b)` for `a, b ≥ 1`: the exponent of the leading
binary digit of the rational `a / b`. -/
def ilog2 (a b : Nat) : Int :=
  let e0 : Int := (nlog2 a : Int) - (nlog2 b : Int)
  if pow2le a b e0 then e0 else e0 - 1

/-- Rounds the rational `num / den` to the nearest integer, ties to even. -/
def nearestEven (num den : Nat) : Nat :=
  let q0 := num / den
  let r := num % den
  if 2 * r < den then q0
  else if den < 2 * r then q0 + 1
  else if q0 % 2 = 0 then q0 else q0 + 1

/-- A dyadic rational `n / 2^k`: the exact value of a `float64`. -/
structure Dyadic where
  n : Int
  k : Nat
deriving Repr, DecidableEq

/-- The exact rational value of a `Dyadic`. -/
def Dyadic.val (x : Dyadic) : ℚ := (x.n : ℚ) / 2 ^ x.k

/-- Rounds the nonnegative rational `a / b` to 53 significant bits
(round to nearest, ties to even): the `binary64` rounding. -/
def posRound (a b : Nat) : Dyadic :=
  let e := ilog2 a b
  let num := if e ≤ 52 then a * 2 ^ (52 - e).toNat else a
  let den := if e ≤ 52 then b else b * 2 ^ (e - 52).toNat
  let m := nearestEven num den
  if e ≤ 52 then ⟨(m : Int), (52 - e).toNat⟩
  else ⟨(m : Int) * 2 ^ (e - 52).toNat, 0⟩

/-- Rounds the rational `p / q` to `binary64`; IEEE rounding is symmetric in
the sign. -/
def ratRound (p : Int) (q : Nat) : Dyadic :=
  if p < 0 then
    let d := posRound p.natAbs q
    ⟨-d.n, d.k⟩
  else posRound p.toNat q

/-- Re-rounds a dyadic value to 53 significant bits. -/
def roundDyadic (x : Dyadic) : Dyadic := ratRound x.n (2 ^ x.k)

/-- `float64(m) + x` for an exactly converted integer `m`: the `binary64`
addition rounds the exact sum. -/
def faddI (m : Int) (x : Dyadic) : Dyadic :=
  roundDyadic ⟨m * 2 ^ x.k + x.n, x.k⟩

/-- `float64(a) / float64(b)` for exactly converted integers: the `binary64`
division rounds the exact quotient. -/
def fdivI (a b : Int) : Dyadic := ratRound a b.toNat

/-- `int(x)` on a `float64`: truncation toward zero. -/
def truncD (x : Dyadic) : Int := Int.tdiv x.n (2 ^ x.k)

/-- `d.Hours()` of `time.Duration`:
`float64(d / Hour) + float64(d % Hour) / (60 * 60 * 1e9)` with Go truncated
division/remainder and `binary64` arithmetic. -/
def goHours (d : Int) : Dyadic :=
  faddI (Int.tdiv d nsPerHour) (fdivI (Int.tmod d nsPerHour) nsPerHour)

/-- `d.Minutes()` of `time.Duration`, as `goHours` with the minute unit. -/
def goMinutes (d : Int) : Dyadic :=
  faddI (Int.tdiv d nsPerMinute) (fdivI (Int.tmod d nsPerMinute) nsPerMinute)

/-- `int(d.Hours())` from the source. -/
def intHours (d : Int) : Int := truncD (goHours d)

/-- `int(d.Minutes())` from the source. -/
def intMinutes (d : Int) : Int := truncD (goMinutes d)

/-- `FormatRemaining` from `internal/prayer/prayer.go`. Durations are integer
nanosecond counts (`time.Duration`); `h` and `m` are the `float64`
computations `int(d.Hours())` and `int(d.Minutes()) % 60` of the source
(`%` is Go truncated remainder). -/
def FormatRemaining (d : Int) : String :=
  if d < 0 then "0m"
  else
    let h := intHours d
    let m := Int.tmod (intMinutes d) 60
    if h > 0 then toString h ++ "h " ++ toString m ++ "m"
    else toString m ++ "m"

/-! #### Correctness of the rounding model on the claim domain -/

theorem nlog2Aux_spec : ∀ (fuel n : Nat), 1 ≤ n → n ≤ 2 ^ fuel →
    2 ^ nlog2Aux fuel n ≤ n ∧ n < 2 ^ (nlog2Aux fuel n + 1) := by
  intro fuel
  induction fuel with
  | zero =>
    intro n h1 h2
    simp only [pow_zero] at h2
    have : n = 1 := le_antisymm h2 h1
    subst this
    simp [nlog2Aux]
  | succ f ih =>
    intro n h1 h2
    by_cases hle : n ≤ 1
    · have : n = 1 := le_antisymm hle h1
      subst this
      simp [nlog2Aux]
    · have h2' : 2 ≤ n := by omega
      have hrec1 : 1 ≤ n / 2 := by omega
      have hrec2 : n / 2 ≤ 2 ^ f := by
        rw [pow_succ] at h2
        omega
      obtain ⟨ihl, ihr⟩ := ih (n / 2) hrec1 hrec2
      have heq : nlog2Aux (f + 1) n = nlog2Aux f (n / 2) + 1 := by
        simp [nlog2Aux, hle]
      rw [heq]
      constructor
      · rw [pow_succ]
        omega
      · rw [pow_succ] at ihr ⊢
        rw [pow_succ]
        omega

theorem nlog2_spec (n : Nat) (h : 1 ≤ n) :
    2 ^ nlog2 n ≤ n ∧ n < 2 ^ (nlog2 n + 1) :=
  nlog2Aux_spec n n h (Nat.le_of_lt (Nat.lt_two_pow n))

theorem pow2le_imp (a b : Nat) (hb : 1 ≤ b) (e : Int)
    (h : pow2le a b e = true) : (2 : ℚ) ^ e ≤ (a : ℚ) / (b : ℚ) := by
  have hb0 : (0 : ℚ) < (b : ℚ) := by exact_mod_cast hb
  rw [le_div_iff₀ hb0]
  unfold pow2le at h
  by_cases he : 0 ≤ e
  · rw [if_pos he, decide_eq_true_eq] at h
    have hcast : ((b * 2 ^ e.toNat : Nat) : ℚ) ≤ (a : ℚ) := by exact_mod_cast h
    push_cast at hcast
    calc (2 : ℚ) ^ e * b = (2 : ℚ) ^ e.toNat * b := by
          rw [← zpow_natCast (2 : ℚ) e.toNat, Int.toNat_of_nonneg he]
      _ ≤ a := by linarith
  · rw [if_neg he, decide_eq_true_eq] at h
    push_neg at he
    have hcast : (b : ℚ) ≤ (a : ℚ) * 2 ^ (-e).toNat := by exact_mod_cast h
    have hpow : ((2 : ℚ) ^ (-e).toNat : ℚ) = (2 : ℚ) ^ (-e) := by
      rw [← zpow_natCast (2 : ℚ) (-e).toNat, Int.toNat_of_nonneg (by omega)]
    rw [hpow] at hcast
    have h2 : (0 : ℚ) < (2 : ℚ) ^ (-e) := zpow_pos (by norm_num) _
    have key : (2 : ℚ) ^ e * (2 : ℚ) ^ (-e) = 1 := by
      rw [← zpow_add₀ (by norm_num : (2:ℚ) ≠ 0)]
      simp
    -- from b ≤ a * 2^(-e), multiply by 2^e > 0
    have h2e : (0 : ℚ) < (2 : ℚ) ^ e := zpow_pos (by norm_num) _
    calc (2 : ℚ) ^ e * b ≤ (2 : ℚ) ^ e * ((a : ℚ) * 2 ^ (-e)) := by
          exact mul_le_mul_of_nonneg_left hcast (le_of_lt h2e)
      _ = (a : ℚ) * ((2 : ℚ) ^ e * 2 ^ (-e)) := by ring
      _ = a := by rw [key, mul_one]

theorem ilog2_le_val (a b : Nat) (ha : 1 ≤ a) (hb : 1 ≤ b) :
    (2 : ℚ) ^ ilog2 a b ≤ (a : ℚ) / (b : ℚ) := by
  unfold ilog2
  by_cases hp : pow2le a b ((nlog2 a : Int) - (nlog2 b : Int)) = true
  · simpa [hp] using pow2le_imp a b hb _ hp
  · simp only [hp, if_false, Bool.false_eq_true]
    -- e = e0 - 1; use the nlog2 brackets
    obtain ⟨hal, _⟩ := nlog2_spec a ha
    obtain ⟨_, hbr⟩ := nlog2_spec b hb
    have hb0 : (0 : ℚ) < (b : ℚ) := by exact_mod_cast hb
    rw [le_div_iff₀ hb0]
    have hbq : (b : ℚ) < 2 ^ (nlog2 b + 1) := by exact_mod_cast hbr
    have haq : ((2 : ℚ)) ^ (nlog2 a) ≤ (a : ℚ) := by exact_mod_cast hal
    have h2 : (0 : ℚ) < (2 : ℚ) ^ ((nlog2 a : Int) - (nlog2 b : Int) - 1) :=
      zpow_pos (by norm_num) _
    have step : (2 : ℚ) ^ ((nlog2 a : Int) - (nlog2 b : Int) - 1) *
        2 ^ (nlog2 b + 1) = (2 : ℚ) ^ (nlog2 a) := by
      rw [← zpow_natCast (2 : ℚ) (nlog2 b + 1), ← zpow_natCast (2 : ℚ) (nlog2 a),
        ← zpow_add₀ (by norm_num : (2:ℚ) ≠ 0)]
      congr 1
      push_cast
      ring
    have hlt : (2 : ℚ) ^ ((nlog2 a : Int) - (nlog2 b : Int) - 1) * b <
        (2 : ℚ) ^ (nlog2 a) := by
      rw [← step]
      exact mul_lt_mul_of_pos_left hbq h2
    exact le_of_lt (lt_of_lt_of_le hlt haq)

theorem ilog2_le (a b : Nat) (ha : 1 ≤ a) (hb : 1 ≤ b) (j : Int)
    (h : (a : ℚ) / (b : ℚ) < 2 ^ (j + 1)) : ilog2 a b ≤ j := by
  by_contra hc
  push_neg at hc
  have h1 : (2 : ℚ) ^ (j + 1) ≤ (2 : ℚ) ^ (ilog2 a b) :=
    zpow_le_zpow_right₀ (by norm_num) (by omega)
  have h2 := ilog2_le_val a b ha hb
  linarith

theorem nearestEven_cases (num den : Nat) :
    (nearestEven num den = num / den ∧ 2 * (num % den) ≤ den) ∨
    (nearestEven num den = num / den + 1 ∧ den ≤ 2 * (num % den)) := by
  simp only [nearestEven]
  split_ifs with h1 h2 h3 <;> omega

theorem nearestEven_mul_le (num den : Nat) :
    2 * (nearestEven num den * den) ≤ 2 * num + den := by
  have h := Nat.div_add_mod num den
  rw [mul_comm den (num / den)] at h
  rcases nearestEven_cases num den with ⟨heq, hle⟩ | ⟨heq, hge⟩ <;> rw [heq]
  · generalize num / den * den = P at *
    omega
  · rw [add_mul, one_mul]
    generalize num / den * den = P at *
    omega

theorem nearestEven_le_q (num den : Nat) (hden : 1 ≤ den) :
    (nearestEven num den : ℚ) ≤ (num : ℚ) / (den : ℚ) + 1 / 2 := by
  have hd0 : (0 : ℚ) < (den : ℚ) := by exact_mod_cast hden
  have hrw : (num : ℚ) / den + 1 / 2 = (2 * num + den) / (2 * den) := by
    field_simp
    ring
  rw [hrw, le_div_iff₀ (by positivity)]
  have h := nearestEven_mul_le num den
  have hc : ((2 * (nearestEven num den * den) : Nat) : ℚ) ≤
      ((2 * num + den : Nat) : ℚ) := by exact_mod_cast h
  push_cast at hc
  linarith

theorem nearestEven_ge_div (num den : Nat) : num / den ≤ nearestEven num den := by
  rcases nearestEven_cases num den with ⟨heq, _⟩ | ⟨heq, _⟩ <;> omega

theorem posRound_eq_of_le (a b : Nat) (he : ilog2 a b ≤ 52) :
    posRound a b = ⟨(nearestEven (a * 2 ^ (52 - ilog2 a b).toNat) b : Int),
      (52 - ilog2 a b).toNat⟩ := by
  simp only [posRound, if_pos he]

theorem posRound_nonneg (a b : Nat) : 0 ≤ (posRound a b).n := by
  simp only [posRound]
  split_ifs <;> positivity

theorem pow2le_zero (b : Nat) (hb : 1 ≤ b) (e : Int) : pow2le 0 b e = false := by
  unfold pow2le
  split_ifs with h
  · simp only [decide_eq_false_iff_not, not_le]
    positivity
  · simp only [decide_eq_false_iff_not, not_le, Nat.zero_mul]
    omega

theorem ilog2_zero_le (b : Nat) (hb : 1 ≤ b) : ilog2 0 b ≤ 52 := by
  simp only [ilog2, pow2le_zero b hb, Bool.false_eq_true, if_false]
  have h0 : nlog2 0 = 0 := rfl
  rw [h0]
  omega

theorem posRound_zero (b : Nat) (hb : 1 ≤ b) : (posRound 0 b).n = 0 := by
  rw [posRound_eq_of_le 0 b (ilog2_zero_le b hb)]
  have h : nearestEven 0 b = 0 := by
    simp only [nearestEven, Nat.zero_div, Nat.zero_mod, Nat.mul_zero]
    split_ifs <;> omega
  simp [h]

theorem posRound_ge_int (a b : Nat) (hb : 1 ≤ b) (he : ilog2 a b ≤ 52)
    (c : Int) (hc0 : 0 ≤ c) (hcab : (c : ℚ) ≤ (a : ℚ) / (b : ℚ)) :
    (c : ℚ) ≤ (posRound a b).val := by
  rw [posRound_eq_of_le a b he]
  set t := (52 - ilog2 a b).toNat with ht
  have hb0 : (0 : ℚ) < b := by exact_mod_cast hb
  have h2t : (0 : ℚ) < (2 : ℚ) ^ t := by positivity
  have hq1 : (c : ℚ) * b ≤ a := (le_div_iff₀ hb0).mp hcab
  have hq2 : (c : ℚ) * 2 ^ t * b ≤ (a : ℚ) * 2 ^ t := by
    have := mul_le_mul_of_nonneg_right hq1 h2t.le
    nlinarith
  have hcC : ((c.toNat : ℚ)) = (c : ℚ) := by exact_mod_cast Int.toNat_of_nonneg hc0
  have hnat : c.toNat * 2 ^ t * b ≤ a * 2 ^ t := by
    have hcast : ((c.toNat * 2 ^ t * b : ℕ) : ℚ) ≤ ((a * 2 ^ t : ℕ) : ℚ) := by
      push_cast
      rw [hcC]
      linarith
    exact_mod_cast hcast
  have hdiv : c.toNat * 2 ^ t ≤ (a * 2 ^ t) / b :=
    (Nat.le_div_iff_mul_le (by omega)).mpr hnat
  have hm : c.toNat * 2 ^ t ≤ nearestEven (a * 2 ^ t) b :=
    le_trans hdiv (nearestEven_ge_div _ _)
  simp only [Dyadic.val]
  rw [le_div_iff₀ h2t]
  have hfin : ((c.toNat * 2 ^ t : ℕ) : ℚ) ≤ ((nearestEven (a * 2 ^ t) b : ℕ) : ℚ) := by
    exact_mod_cast hm
  push_cast at hfin
  rw [hcC] at hfin
  push_cast
  linarith

theorem posRound_le (a b : Nat) (hb : 1 ≤ b) (he : ilog2 a b ≤ 52) :
    (posRound a b).val ≤ (a : ℚ) / b + 2 ^ (ilog2 a b - 53) := by
  rw [posRound_eq_of_le a b he]
  set t := (52 - ilog2 a b).toNat with ht
  have hb0 : (0 : ℚ) < b := by exact_mod_cast hb
  have h2t : (0 : ℚ) < (2 : ℚ) ^ t := by positivity
  have hm := nearestEven_le_q (a * 2 ^ t) b hb
  have hnum : ((a * 2 ^ t : ℕ) : ℚ) = (a : ℚ) * 2 ^ t := by push_cast; ring
  rw [hnum] at hm
  have hE : (2 : ℚ) ^ (ilog2 a b - 53) = 1 / 2 ^ (t + 1) := by
    have htz : (t : ℤ) = 52 - ilog2 a b := Int.toNat_of_nonneg (by omega)
    have h53 : ilog2 a b - 53 = -((t + 1 : ℕ) : ℤ) := by push_cast; omega
    rw [h53, zpow_neg, zpow_natCast, one_div]
  simp only [Dyadic.val]
  rw [hE]
  rw [div_le_iff₀ h2t]
  have expand : ((a : ℚ) / b + 1 / 2 ^ (t + 1)) * 2 ^ t = (a : ℚ) * 2 ^ t / b + 1 / 2 := by
    field_simp
    ring
  rw [expand]
  push_cast
  exact hm

theorem Dyadic.val_nonneg (x : Dyadic) (h : 0 ≤ x.n) : 0 ≤ x.val := by
  rw [Dyadic.val]
  apply div_nonneg
  · exact_mod_cast h
  · positivity

theorem two_zpow_neg (m : Nat) : (2 : ℚ) ^ (-(m : ℤ)) = 1 / 2 ^ m := by
  rw [zpow_neg, zpow_natCast, one_div]

theorem truncD_eq_of_bounds (x : Dyadic) (a : Int) (h0 : 0 ≤ x.n)
    (hlo : (a : ℚ) ≤ x.val) (hhi : x.val < (a : ℚ) + 1) : truncD x = a := by
  rw [Dyadic.val] at hlo hhi
  have hD : (0 : ℤ) < 2 ^ x.k := by positivity
  have hDQ : (0 : ℚ) < (2 : ℚ) ^ x.k := by positivity
  have h1 : a * 2 ^ x.k ≤ x.n := by
    have h := (le_div_iff₀ hDQ).mp hlo
    exact_mod_cast h
  have h2 : x.n < (a + 1) * 2 ^ x.k := by
    have h := (div_lt_iff₀ hDQ).mp hhi
    have h' : (x.n : ℚ) < ((a : ℚ) + 1) * 2 ^ x.k := h
    exact_mod_cast h'
  have he : x.n / 2 ^ x.k = a := by
    have hl := (Int.le_ediv_iff_mul_le hD).mpr h1
    have hr := (Int.ediv_lt_iff_lt_mul hD).mpr h2
    omega
  rw [truncD, Int.tdiv_eq_ediv h0 (le_of_lt hD), he]

theorem truncD_fadd_fdiv (a r u : Int) (k : Nat)
    (ha0 : 0 ≤ a) (hak : a < 2 ^ k) (hk : k ≤ 52)
    (hr0 : 0 ≤ r) (hru : r < u)
    (hmargin : (1 : ℚ) / 2 ^ 54 + (2 : ℚ) ^ ((k : ℤ) - 54) < 1 / (u : ℚ)) :
    truncD (faddI a (fdivI r u)) = a := by
  have hu1 : 1 ≤ u := by omega
  have huQ : (0 : ℚ) < (u : ℚ) := by exact_mod_cast (by omega : (0 : ℤ) < u)
  have huN : 1 ≤ u.toNat := by omega
  have hfdiv : fdivI r u = posRound r.toNat u.toNat := by
    simp only [fdivI, ratRound, if_neg (not_lt.mpr hr0)]
  rw [hfdiv]
  set x := posRound r.toNat u.toNat with hx
  have hxn : 0 ≤ x.n := posRound_nonneg _ _
  have hxnn : 0 ≤ x.val := Dyadic.val_nonneg x hxn
  have hrQ : ((r.toNat : ℕ) : ℚ) = (r : ℚ) := by exact_mod_cast Int.toNat_of_nonneg hr0
  have huQ' : ((u.toNat : ℕ) : ℚ) = (u : ℚ) := by
    exact_mod_cast Int.toNat_of_nonneg (by omega : (0 : ℤ) ≤ u)
  have hmarg0 : (1 : ℚ) / 2 ^ 54 < 1 / (u : ℚ) := by
    have hp : (0 : ℚ) < (2 : ℚ) ^ ((k : ℤ) - 54) := zpow_pos (by norm_num) _
    linarith
  have hxub : x.val ≤ (r : ℚ) / u + 1 / 2 ^ 54 := by
    rcases Nat.eq_zero_or_pos r.toNat with hz | hpos
    · have h0 : (posRound 0 u.toNat).n = 0 := posRound_zero u.toNat huN
      have hv0 : x.val = 0 := by
        rw [hx, hz, Dyadic.val, h0]
        simp
      rw [hv0]
      have : (0 : ℚ) ≤ (r : ℚ) / u := by positivity
      positivity
    · have hruN : ((r.toNat : ℕ) : ℚ) / ((u.toNat : ℕ) : ℚ) < 1 := by
        rw [div_lt_one (by rw [huQ']; exact huQ), hrQ, huQ']
        exact_mod_cast hru
      have hee : ilog2 r.toNat u.toNat ≤ -1 := by
        apply ilog2_le _ _ hpos huN
        simpa using hruN
      have hle := posRound_le r.toNat u.toNat huN (by omega)
      have herr : (2 : ℚ) ^ (ilog2 r.toNat u.toNat - 53) ≤ 1 / 2 ^ 54 := by
        rw [← two_zpow_neg 54]
        exact zpow_le_zpow_right₀ (by norm_num) (by omega)
      rw [hrQ, huQ'] at hle
      rw [hx]
      linarith
  have hBpos : (0 : ℤ) < 2 ^ x.k := by positivity
  have hsn0 : 0 ≤ a * 2 ^ x.k + x.n :=
    add_nonneg (mul_nonneg ha0 (le_of_lt hBpos)) hxn
  have hfadd : faddI a x = posRound (a * 2 ^ x.k + x.n).toNat (2 ^ x.k) := by
    simp only [faddI, roundDyadic, ratRound, if_neg (not_lt.mpr hsn0)]
  rw [hfadd]
  set sn := a * 2 ^ x.k + x.n with hsn
  have hB1 : 1 ≤ 2 ^ x.k := Nat.one_le_two_pow
  rcases Nat.eq_zero_or_pos sn.toNat with hz | hpos
  · have hsz : sn = 0 := by omega
    have hm0 : a * 2 ^ x.k = 0 := by
      have hmn := mul_nonneg ha0 (le_of_lt hBpos)
      linarith [hxn]
    have ha' : a = 0 := by
      rcases mul_eq_zero.mp hm0 with h | h
      · exact h
      · exact absurd h (by positivity)
    rw [hz]
    have h0 : (posRound 0 (2 ^ x.k)).n = 0 := posRound_zero _ hB1
    simp only [truncD, h0, ha']
    exact Int.zero_tdiv _
  · have hsnQ : ((sn.toNat : ℕ) : ℚ) = (sn : ℚ) := by
      exact_mod_cast Int.toNat_of_nonneg hsn0
    have h2kQ : (0 : ℚ) < ((2 ^ x.k : ℕ) : ℚ) := by positivity
    have hv : ((sn.toNat : ℕ) : ℚ) / ((2 ^ x.k : ℕ) : ℚ) = (a : ℚ) + x.val := by
      rw [hsnQ, hsn, Dyadic.val]
      push_cast
      have hne : ((2 : ℚ)) ^ x.k ≠ 0 := by positivity
      field_simp
    have hrltu : (r : ℚ) / u ≤ 1 - 1 / u := by
      rw [div_le_iff₀ huQ]
      have hr1u : (r : ℚ) + 1 ≤ u := by exact_mod_cast hru
      have hexp : (1 - 1 / (u : ℚ)) * u = u - 1 := by field_simp
      linarith
  
    have hfrac1 : (r : ℚ) / u + 1 / 2 ^ 54 < 1 := by linarith
    have hxlt1 : x.val < 1 := lt_of_le_of_lt hxub hfrac1
    have hvlt : ((sn.toNat : ℕ) : ℚ) / ((2 ^ x.k : ℕ) : ℚ) < (2 : ℚ) ^ k := by
      rw [hv]
      have haQ : (a : ℚ) + 1 ≤ (2 : ℚ) ^ k := by exact_mod_cast hak
      linarith
    have hes : ilog2 sn.toNat (2 ^ x.k) ≤ (k : ℤ) - 1 := by
      apply ilog2_le _ _ hpos hB1
      have hexp : (k : ℤ) - 1 + 1 = (k : ℤ) := by ring
      rw [hexp, zpow_natCast]
      exact hvlt
    have hes52 : ilog2 sn.toNat (2 ^ x.k) ≤ 52 := by omega
    have hlow : (a : ℚ) ≤ (posRound sn.toNat (2 ^ x.k)).val := by
      apply posRound_ge_int _ _ hB1 hes52 a ha0
      rw [hv]
      linarith
    have herr2 : (2 : ℚ) ^ (ilog2 sn.toNat (2 ^ x.k) - 53) ≤ (2 : ℚ) ^ ((k : ℤ) - 54) :=
      zpow_le_zpow_right₀ (by norm_num) (by omega)
    have hup : (posRound sn.toNat (2 ^ x.k)).val < (a : ℚ) + 1 := by
      have h1 := posRound_le sn.toNat (2 ^ x.k) hB1 hes52
      rw [hv] at h1
      linarith [hxub, herr2, hrltu, hmargin]
    exact truncD_eq_of_bounds _ a (posRound_nonneg _ _) hlow hup

theorem intHours_eq (d : Int) (h0 : 0 ≤ d) (h1 : d < 4096 * nsPerHour) :
    intHours d = d / nsPerHour := by
  have hH : (0 : ℤ) < nsPerHour := by norm_num [nsPerHour]
  have htd : Int.tdiv d nsPerHour = d / nsPerHour :=
    Int.tdiv_eq_ediv h0 (le_of_lt hH)
  have htm : Int.tmod d nsPerHour = d % nsPerHour :=
    Int.tmod_eq_emod h0 (le_of_lt hH)
  rw [intHours, goHours, htd, htm]
  apply truncD_fadd_fdiv (d / nsPerHour) (d % nsPerHour) nsPerHour 12
  · exact Int.ediv_nonneg h0 (le_of_lt hH)
  · rw [show (2:ℤ) ^ 12 = 4096 by norm_num, Int.ediv_lt_iff_lt_mul hH]
    exact h1
  · norm_num
  · exact Int.emod_nonneg d (ne_of_gt hH)
  · exact Int.emod_lt_of_pos d hH
  · rw [show ((12:ℕ) : ℤ) - 54 = -((42:ℕ) : ℤ) by norm_num, two_zpow_neg]
    rw [nsPerHour]
    norm_num

theorem intMinutes_eq (d : Int) (h0 : 0 ≤ d) (h1 : d < 4096 * nsPerHour) :
    intMinutes d = d / nsPerMinute := by
  have hM : (0 : ℤ) < nsPerMinute := by norm_num [nsPerMinute]
  have htd : Int.tdiv d nsPerMinute = d / nsPerMinute :=
    Int.tdiv_eq_ediv h0 (le_of_lt hM)
  have htm : Int.tmod d nsPerMinute = d % nsPerMinute :=
    Int.tmod_eq_emod h0 (le_of_lt hM)
  rw [intMinutes, goMinutes, htd, htm]
  apply truncD_fadd_fdiv (d / nsPerMinute) (d % nsPerMinute) nsPerMinute 18
  · exact Int.ediv_nonneg h0 (le_of_lt hM)
  · rw [show (2:ℤ) ^ 18 = 262144 by norm_num, Int.ediv_lt_iff_lt_mul hM]
    calc d < 4096 * nsPerHour := h1
      _ ≤ 262144 * nsPerMinute := by norm_num [nsPerHour, nsPerMinute]
  · norm_num
  · exact Int.emod_nonneg d (ne_of_gt hM)
  · exact Int.emod_lt_of_pos d hM
  · rw [show ((18:ℕ) : ℤ) - 54 = -((36:ℕ) : ℤ) by norm_num, two_zpow_neg]
    rw [nsPerMinute]
    norm_num

set_option maxRecDepth 100000 in
/-- Claim C8 (amended): `FormatRemaining` maps negative durations to `"0m"`;
durations in `[0, 1h)` map to `"Nm"` with `N` the whole number of minutes;
durations of at least one hour and below 4096 hours map to `"Hh Mm"` with `H`
the truncated whole hours and `M` the total whole minutes modulo 60 (on this
domain the two `float64` roundings in `d.Hours()` and `d.Minutes()` are
absorbed by the truncations, so the printed values are the exact integer
ones); and the concrete examples `0 ↦ "0m"`, `45m ↦ "45m"`, `60m ↦ "1h 0m"`,
`61m ↦ "1h 1m"` hold. The original unbounded hour clause is refuted by
`C8_counterexample`. -/
theorem C8_formatRemaining_spec (d : Int) :
    (d < 0 → FormatRemaining d = "0m")
    ∧ (0 ≤ d → d < nsPerHour →
        FormatRemaining d = toString (d / nsPerMinute) ++ "m")
    ∧ (nsPerHour ≤ d → d < 4096 * nsPerHour →
        FormatRemaining d =
          toString (d / nsPerHour) ++ "h " ++
            toString ((d / nsPerMinute) % 60) ++ "m")
    ∧ FormatRemaining 0 = "0m"
    ∧ FormatRemaining (45 * nsPerMinute) = "45m"
    ∧ FormatRemaining (60 * nsPerMinute) = "1h 0m"
    ∧ FormatRemaining (61 * nsPerMinute) = "1h 1m" := by
  refine ⟨fun h => by simp [FormatRemaining, h], fun h0 h1 => ?_, fun h3 h4 => ?_,
    by decide, by decide, by decide, by decide⟩
  · have h4 : d < 4096 * nsPerHour := by
      simp only [nsPerHour] at *
      omega
    have hh := intHours_eq d h0 h4
    have hmm := intMinutes_eq d h0 h4
    have hh0 : d / nsPerHour = 0 := by
      simp only [nsPerHour, nsPerMinute] at *
      omega
    have hmge : 0 ≤ d / nsPerMinute := by
      simp only [nsPerMinute] at *
      omega
    have hmod : Int.tmod (d / nsPerMinute) 60 = d / nsPerMinute := by
      rw [Int.tmod_eq_emod hmge (by norm_num)]
      simp only [nsPerMinute, nsPerHour] at *
      omega
    simp [FormatRemaining, hh, hmm, hh0, hmod, not_lt.mpr h0]
  · have h0 : 0 ≤ d := by
      simp only [nsPerHour] at *
      omega
    have hh := intHours_eq d h0 h4
    have hmm := intMinutes_eq d h0 h4
    have hhpos : 0 < d / nsPerHour := by
      simp only [nsPerHour] at *
      omega
    have hmge : 0 ≤ d / nsPerMinute := by
      simp only [nsPerMinute] at *
      omega
    have hmod : Int.tmod (d / nsPerMinute) 60 = (d / nsPerMinute) % 60 :=
      Int.tmod_eq_emod hmge (by norm_num)
    simp [FormatRemaining, hh, hmm, hmod, not_lt.mpr h0, hhpos]

set_option maxRecDepth 100000 in
/-- Counterexample to the original claim C8: at `d = 4097h − 1ns` the program
prints `"4097h 59m"` (the `float64` division in `d.Hours()` rounds the
quotient up across the integer boundary, `d` being within half an ulp of
`4097`), while the truncated whole number of hours of `d` is `4096`. -/
theorem C8_counterexample :
    FormatRemaining (4097 * nsPerHour - 1) = "4097h 59m" ∧
    (4097 * nsPerHour - 1) / nsPerHour = 4096 :=
  ⟨by decide, by decide⟩

/-- Witness for C8 at `d = -1` (negative durations report `"0m"`). -/
theorem C8_witness : FormatRemaining (-1) = "0m" :=
  (C8_formatRemaining_spec (-1)).1 (by decide)

/-! ### Proleptic Gregorian calendar (model of the Go `time` collaborator)

The repository consumes `time.Date`, `Time.Year/Month/Day` and
`Time.AddDate(0, 0, n)` from the standard library; the specification treats
the time library at its boundary ("the absolute instant for `hour:minute:00`
on `date`, in `tz`"). The civil (proleptic Gregorian) calendar is modelled
with the standard era-based day-numbering algorithms; `daysFromCivil` and
`civilFromDays` convert between a calendar date and its serial day number
(day 0 = 1970-01-01), and are proved mutually inverse on valid dates. -/

/-- Leap-year predicate of the Gregorian calendar. -/
def isLeap (y : Int) : Bool := decide ((y % 4 = 0 ∧ y % 100 ≠ 0) ∨ y % 400 = 0)

/-- Number of days in month `m` of year `y`. -/
def daysInMonth (y m : Int) : Int :=
  if m = 2 then (if isLeap y then 29 else 28)
  else if m = 4 ∨ m = 6 ∨ m = 9 ∨ m = 11 then 30
  else 31

/-- Serial day number (1970-01-01 = 0) of the civil date `(y, m, d)`. -/
def daysFromCivil (y m d : Int) : Int :=
  let y1 := if m ≤ 2 then y - 1 else y
  let era := y1 / 400
  let yoe := y1 - era * 400
  let mp := (m + 9) % 12
  let doy := (153 * mp + 2) / 5 + d - 1
  let doe := 365 * yoe + yoe / 4 - yoe / 100 + doy
  era * 146097 + doe - 719468

/-- Civil date `(y, m, d)` of a serial day number (inverse of
`daysFromCivil`). -/
def civilFromDays (z : Int) : Int × Int × Int :=
  let z1 := z + 719468
  let era := z1 / 146097
  let doe := z1 - era * 146097
  let yoe := (doe - doe / 1460 + doe / 36524 - doe / 146096) / 365
  let doy := doe - (365 * yoe + yoe / 4 - yoe / 100)
  let mp := (5 * doy + 2) / 153
  let d := doy - (153 * mp + 2) / 5 + 1
  let m := if mp < 10 then mp + 3 else mp - 9
  (if m ≤ 2 then era * 400 + yoe + 1 else era * 400 + yoe, m, d)

set_option maxHeartbeats 4000000 in
/-- Within one 400-year era, the year-of-era is recovered from the day-of-era
by the approximate-division formula of `civilFromDays`. -/
theorem yoe_recover (yoe doy doe : Int) (h1 : 0 ≤ yoe) (h2 : yoe ≤ 399)
    (h3 : 0 ≤ doy)
    (h4 : doy ≤ 364 ∨
      (doy = 365 ∧ (yoe + 1) % 4 = 0 ∧ ((yoe + 1) % 100 ≠ 0 ∨ yoe = 399)))
    (hdoe : doe = 365 * yoe + yoe / 4 - yoe / 100 + doy) :
    (doe - doe / 1460 + doe / 36524 - doe / 146096) / 365 = yoe := by
  interval_cases yoe <;> omega

set_option maxHeartbeats 1000000 in
/-- `civilFromDays` recovers era, year-of-era, March-based month and day from
a serial day number assembled by the `daysFromCivil` formula. -/
theorem civil_core (era yoe mp d z doy doe : Int)
    (hyoe1 : 0 ≤ yoe) (hyoe2 : yoe ≤ 399)
    (hmp1 : 0 ≤ mp) (hmp2 : mp ≤ 11)
    (hd1 : 1 ≤ d)
    (hd2 : (mp ≤ 10 ∧ d ≤ (153 * (mp + 1) + 2) / 5 - (153 * mp + 2) / 5) ∨
           (mp = 11 ∧ d ≤ 28 +
             (if (yoe + 1) % 4 = 0 ∧ ((yoe + 1) % 100 ≠ 0 ∨ yoe = 399)
              then 1 else 0)))
    (hdoy : doy = (153 * mp + 2) / 5 + d - 1)
    (hdoe : doe = 365 * yoe + yoe / 4 - yoe / 100 + doy)
    (hz : z = era * 146097 + doe - 719468) :
    civilFromDays z =
      (if (if mp < 10 then mp + 3 else mp - 9) ≤ 2
        then era * 400 + yoe + 1 else era * 400 + yoe,
       if mp < 10 then mp + 3 else mp - 9,
       d) := by
  have hdoy1 : 0 ≤ doy := by
    rcases hd2 with ⟨h, hdle⟩ | ⟨rfl, hdle⟩ <;> omega
  have hdoy2 : doy ≤ 364 ∨
      (doy = 365 ∧ (yoe + 1) % 4 = 0 ∧ ((yoe + 1) % 100 ≠ 0 ∨ yoe = 399)) := by
    rcases hd2 with ⟨h, hdle⟩ | ⟨rfl, hdle⟩
    · left; omega
    · by_cases hleap : (yoe + 1) % 4 = 0 ∧ ((yoe + 1) % 100 ≠ 0 ∨ yoe = 399)
      · rw [if_pos hleap] at hdle; omega
      · rw [if_neg hleap] at hdle; left; omega
  have hdoe0 : 0 ≤ doe := by omega
  have hdoe1 : doe ≤ 146096 := by omega
  simp only [civilFromDays]
  rw [show z + 719468 = era * 146097 + doe by omega]
  rw [show (era * 146097 + doe) / 146097 = era by omega]
  rw [show era * 146097 + doe - era * 146097 = doe by ring]
  rw [yoe_recover yoe doy doe hyoe1 hyoe2 hdoy1 hdoy2 hdoe]
  rw [show doe - (365 * yoe + yoe / 4 - yoe / 100) = doy by omega]
  have hmprec : (5 * doy + 2) / 153 = mp := by
    rcases hd2 with ⟨h, hdle⟩ | ⟨rfl, hdle⟩
    · interval_cases mp <;> omega
    · split at hdle <;> omega
  rw [hmprec]
  rw [show doy - (153 * mp + 2) / 5 + 1 = d by omega]

set_option maxHeartbeats 1000000 in
/-- On valid civil dates, `civilFromDays` inverts `daysFromCivil`. -/
theorem civil_roundtrip (y m d : Int) (hm1 : 1 ≤ m) (hm2 : m ≤ 12)
    (hd1 : 1 ≤ d) (hd2 : d ≤ daysInMonth y m) :
    civilFromDays (daysFromCivil y m d) = (y, m, d) := by
  rcases show m = 1 ∨ m = 2 ∨ (3 ≤ m ∧ m ≤ 12) from by omega with rfl | rfl | ⟨hm3, _⟩
  · -- January: March-based month 10 of the previous civil year.
    have hd31 : d ≤ 31 := by
      simp [daysInMonth] at hd2
      omega
    have hcore := civil_core ((y - 1) / 400) (y - 1 - (y - 1) / 400 * 400) 10 d
      (daysFromCivil y 1 d) ((153 * 10 + 2) / 5 + d - 1)
      (365 * (y - 1 - (y - 1) / 400 * 400) + (y - 1 - (y - 1) / 400 * 400) / 4 -
        (y - 1 - (y - 1) / 400 * 400) / 100 + ((153 * 10 + 2) / 5 + d - 1))
      (by omega) (by omega) (by omega) (by omega) hd1
      (Or.inl ⟨by omega, by omega⟩) rfl rfl
      (by simp only [daysFromCivil]; norm_num)
    rw [hcore]
    norm_num
  · -- February: March-based month 11; the day bound depends on leapness.
    have hlc_iff : ((y - 1 - (y - 1) / 400 * 400 + 1) % 4 = 0 ∧
        ((y - 1 - (y - 1) / 400 * 400 + 1) % 100 ≠ 0 ∨
          y - 1 - (y - 1) / 400 * 400 = 399)) ↔
        ((y % 4 = 0 ∧ y % 100 ≠ 0) ∨ y % 400 = 0) := by omega
    have hdm : d ≤ if (y % 4 = 0 ∧ y % 100 ≠ 0) ∨ y % 400 = 0 then 29 else 28 := by
      simpa [daysInMonth, isLeap, decide_eq_true_eq] using hd2
    have hdm' : d ≤ 28 +
        (if (y - 1 - (y - 1) / 400 * 400 + 1) % 4 = 0 ∧
            ((y - 1 - (y - 1) / 400 * 400 + 1) % 100 ≠ 0 ∨
              y - 1 - (y - 1) / 400 * 400 = 399) then 1 else 0) := by
      by_cases hlc : (y - 1 - (y - 1) / 400 * 400 + 1) % 4 = 0 ∧
          ((y - 1 - (y - 1) / 400 * 400 + 1) % 100 ≠ 0 ∨
            y - 1 - (y - 1) / 400 * 400 = 399)
      · rw [if_pos hlc]
        rw [if_pos (hlc_iff.mp hlc)] at hdm
        omega
      · rw [if_neg hlc]
        rw [if_neg (fun hl => hlc (hlc_iff.mpr hl))] at hdm
        omega
    have hcore := civil_core ((y - 1) / 400) (y - 1 - (y - 1) / 400 * 400) 11 d
      (daysFromCivil y 2 d) ((153 * 11 + 2) / 5 + d - 1)
      (365 * (y - 1 - (y - 1) / 400 * 400) + (y - 1 - (y - 1) / 400 * 400) / 4 -
        (y - 1 - (y - 1) / 400 * 400) / 100 + ((153 * 11 + 2) / 5 + d - 1))
      (by omega) (by omega) (by omega) (by omega) hd1
      (Or.inr ⟨rfl, hdm'⟩) rfl rfl
      (by simp only [daysFromCivil]; norm_num)
    rw [hcore]
    norm_num
  · -- March through December: March-based months 0–9 of the same civil year.
    have hmc : ¬ m ≤ 2 := by omega
    have hdlen : d ≤ (153 * ((m + 9) % 12 + 1) + 2) / 5 -
        (153 * ((m + 9) % 12) + 2) / 5 := by
      simp only [daysInMonth, if_neg (show ¬ m = 2 by omega)] at hd2
      interval_cases m <;> simp at hd2 <;> omega
    have hcore := civil_core (y / 400) (y - y / 400 * 400) ((m + 9) % 12) d
      (daysFromCivil y m d) ((153 * ((m + 9) % 12) + 2) / 5 + d - 1)
      (365 * (y - y / 400 * 400) + (y - y / 400 * 400) / 4 -
        (y - y / 400 * 400) / 100 + ((153 * ((m + 9) % 12) + 2) / 5 + d - 1))
      (by omega) (by omega) (by omega) (by omega) hd1
      (Or.inl ⟨by omega, hdlen⟩) rfl rfl
      (by simp only [daysFromCivil, if_neg hmc])
    rw [hcore]
    have hmp_eq : (m + 9) % 12 = m - 3 := by omega
    rw [hmp_eq, if_pos (show m - 3 < 10 by omega),
      if_neg (show ¬ m - 3 + 3 ≤ 2 by omega)]
    simp only [Prod.mk.injEq]
    refine ⟨by omega, by omega, ?_⟩
    trivial

/-- Nanoseconds per second (`time.Second`). -/
def nsPerSecond : Int := 1000000000

/-- Nanoseconds per day (24 hours). -/
def nsPerDay : Int := 86400000000000

/-- A Go `time.Time` viewed through its accessors: normalized civil fields
(`Year/Month/Day/Hour/Minute/Second/Nanosecond`) plus the location name. -/
structure GoTime where
  year : Int
  month : Int
  day : Int
  hour : Int
  minute : Int
  second : Int
  nano : Int
  loc : String
deriving Repr, DecidableEq

/-- Model of the `time.Date` collaborator: per Go's documentation, values
outside their usual ranges are normalized during the conversion. The clock
components are folded into a nanosecond offset (with a euclidean day carry)
and the date components renormalized through the civil calendar. -/
def goDate (y mo d hh mi ss ns : Int) (loc : String) : GoTime :=
  let yc := y + (mo - 1) / 12
  let mc := (mo - 1) % 12 + 1
  let clockNs := ns + nsPerSecond * (ss + 60 * (mi + 60 * hh))
  let dayCarry := clockNs / nsPerDay
  let rem := clockNs % nsPerDay
  let c := civilFromDays (daysFromCivil yc mc 1 + (d - 1) + dayCarry)
  { year := c.1, month := c.2.1, day := c.2.2,
    hour := rem / nsPerHour,
    minute := rem % nsPerHour / nsPerMinute,
    second := rem % nsPerMinute / nsPerSecond,
    nano := rem % nsPerSecond,
    loc := loc }

/-- The (location-naive) instant of a `GoTime` in nanoseconds since
1970-01-01 00:00:00 of its location; all instants compared in one program run
share one location, so `After`/`Sub` on `time.Time` coincide with `<`/`-`
on this view. -/
def GoTime.instant (t : GoTime) : Int :=
  nsPerDay * daysFromCivil t.year t.month t.day +
    nsPerSecond * (t.second + 60 * (t.minute + 60 * t.hour)) + t.nano

/-- On in-range components, `goDate` stores the supplied fields verbatim
(the normalization carries all vanish). -/
theorem goDate_valid (y mo d hh mi : Int) (loc : String)
    (hm1 : 1 ≤ mo) (hm2 : mo ≤ 12) (hd1 : 1 ≤ d) (hd2 : d ≤ daysInMonth y mo)
    (hh1 : 0 ≤ hh) (hh2 : hh ≤ 23) (hmi1 : 0 ≤ mi) (hmi2 : mi ≤ 59) :
    goDate y mo d hh mi 0 0 loc = ⟨y, mo, d, hh, mi, 0, 0, loc⟩ := by
  simp only [goDate, nsPerSecond, nsPerDay, nsPerHour, nsPerMinute]
  rw [show y + (mo - 1) / 12 = y by omega, show (mo - 1) % 12 + 1 = mo by omega]
  rw [show (0 : Int) + 1000000000 * (0 + 60 * (mi + 60 * hh)) =
    60000000000 * mi + 3600000000000 * hh by ring]
  rw [show (60000000000 * mi + 3600000000000 * hh) / 86400000000000 = 0 by omega]
  rw [show (60000000000 * mi + 3600000000000 * hh) % 86400000000000 =
    60000000000 * mi + 3600000000000 * hh by omega]
  rw [show daysFromCivil y mo 1 + (d - 1) + 0 = daysFromCivil y mo d by
    simp only [daysFromCivil]; ring]
  rw [civil_roundtrip y mo d hm1 hm2 hd1 hd2]
  simp only [GoTime.mk.injEq]
  refine ⟨trivial, trivial, trivial, by omega, by omega, by omega, by omega, trivial⟩

/-! ### The provider time-string parser (`parseTimeStr`) -/

/-- ASCII whitespace test (`unicode.IsSpace` restricted to the characters the
provider emits). -/
def isSpaceChar (c : Char) : Bool :=
  (c == ' ') || (c == '\t') || (c == '\n') || (c == '\r')

/-- `strings.TrimSpace`. -/
def trimSpace (s : List Char) : List Char :=
  ((s.dropWhile isSpaceChar).reverse.dropWhile isSpaceChar).reverse

/-- The `strings.Index(s, " ")` cut of `parseTimeStr`: keep only the part
before the first space (the whole string when no space occurs). -/
def cutAtSpace (s : List Char) : List Char := s.takeWhile (fun c => c != ' ')

/-- `strings.Split` with a single-character separator. -/
def splitOnChar (sep : Char) : List Char → List (List Char)
  | [] => [[]]
  | c :: rest =>
    if c == sep then [] :: splitOnChar sep rest
    else
      match splitOnChar sep rest with
      | [] => [[c]]
      | g :: gs => (c :: g) :: gs

/-- Accumulate a run of leading decimal digits. -/
def digitsAux : List Char → Nat → Nat
  | c :: rest, acc =>
    if c.isDigit then digitsAux rest (acc * 10 + (c.toNat - 48)) else acc
  | [], acc => acc

/-- Read a nonempty run of leading decimal digits, else fail. -/
def scanNat : List Char → Option Nat
  | c :: rest => if c.isDigit then some (digitsAux rest (c.toNat - 48)) else none
  | [] => none

/-- Model of `fmt.Sscanf(s, "%d", &n)`: skip leading spaces, accept an
optional sign, require at least one decimal digit; input after the digits is
ignored (Sscanf only reports an error when no integer can be read). -/
def sscanInt (s : List Char) : Option Int :=
  match s.dropWhile (fun c => c == ' ') with
  | '-' :: rest => (scanNat rest).map (fun n => -(n : Int))
  | '+' :: rest => (scanNat rest).map (fun n => (n : Int))
  | rest => (scanNat rest).map (fun n => (n : Int))

/-- The pure string-processing part of `parseTimeStr`
(`internal/prayer/prayer.go`): trim, discard everything from the first space
(a `" (BST)"`-style suffix), split on `":"`, require exactly two parts, scan
each with `%d`. -/
def parseTimeStrCore (raw : List Char) : Option (Int × Int) :=
  let s := cutAtSpace (trimSpace raw)
  match splitOnChar ':' s with
  | [p1, p2] =>
    match sscanInt p1, sscanInt p2 with
    | some hour, some mn => some (hour, mn)
    | _, _ => none
  | _ => none

/-- `parseTimeStr` from `internal/prayer/prayer.go`: parse the `"HH:MM"`
token and build `time.Date(date.Year(), date.Month(), date.Day(), hour, min,
0, 0, loc)`; any scan failure is an error (`none`). -/
def parseTimeStr (raw : List Char) (date : GoTime) (loc : String) :
    Option GoTime :=
  match parseTimeStrCore raw with
  | some (hour, mn) => some (goDate date.year date.month date.day hour mn 0 0 loc)
  | none => none

/-- The canonical two-digit decimal rendering of `n < 100`. -/
def twoDigits (n : Nat) : List Char :=
  [Char.ofNat (48 + n / 10), Char.ofNat (48 + n % 10)]

/-- A valid provider clock string `"HH:MM"`. -/
def hhmmString (hh mn : Nat) : List Char := twoDigits hh ++ ':' :: twoDigits mn

/-- Scanning a canonical `"HH:MM"` string recovers the two numbers. -/
theorem hhmm_scan : ∀ hh < 24, ∀ mn < 60,
    parseTimeStrCore (hhmmString hh mn) = some ((hh : Int), (mn : Int)) := by
  decide

/-- Claim C5: for every valid `"HH:MM"` string, every calendar date, and
every timezone, `parseTimeStr` succeeds, and the result carries exactly the
supplied hour, minute, calendar date and location, with zero second and
sub-second components. (The embedding is a pure function, so independence
from wall-clock time is inherent.) -/
theorem C5_parseTimeStr_roundtrip (hh mn : Nat) (date : GoTime) (loc : String)
    (hh24 : hh < 24) (mn60 : mn < 60)
    (hm1 : 1 ≤ date.month) (hm2 : date.month ≤ 12)
    (hd1 : 1 ≤ date.day) (hd2 : date.day ≤ daysInMonth date.year date.month) :
    parseTimeStr (hhmmString hh mn) date loc =
      some ⟨date.year, date.month, date.day, (hh : Int), (mn : Int), 0, 0, loc⟩ := by
  have hscan := hhmm_scan hh hh24 mn mn60
  simp only [parseTimeStr, hscan]
  rw [goDate_valid date.year date.month date.day hh mn loc hm1 hm2 hd1 hd2
    (by omega) (by omega) (by omega) (by omega)]

/-- Witness for C5: parsing `"05:17"` on 2026-02-28 (UTC). -/
theorem C5_witness :
    parseTimeStr (hhmmString 5 17) ⟨2026, 2, 28, 0, 0, 0, 0, "UTC"⟩ "UTC" =
      some ⟨2026, 2, 28, 5, 17, 0, 0, "UTC"⟩ :=
  C5_parseTimeStr_roundtrip 5 17 ⟨2026, 2, 28, 0, 0, 0, 0, "UTC"⟩ "UTC"
    (by decide) (by decide) (by decide) (by decide) (by decide) (by decide)

/-! ### `api.Timings` and `ParseTimings` -/

/-- `api.Timings` (`internal/api/types.go`): the eleven event time strings of
one day. -/
structure Timings where
  Fajr : List Char
  Sunrise : List Char
  Dhuhr : List Char
  Asr : List Char
  Sunset : List Char
  Maghrib : List Char
  Isha : List Char
  Imsak : List Char
  Midnight : List Char
  Firstthird : List Char
  Lastthird : List Char
deriving Repr, DecidableEq, Inhabited

/-- `AllPrayerNames` (`internal/prayer/prayer.go`): every event the API can
return, in chronological order. -/
def AllPrayerNames : List String :=
  ["Fajr", "Sunrise", "Dhuhr", "Asr", "Sunset", "Maghrib", "Isha",
   "Imsak", "Midnight", "Firstthird", "Lastthird"]

/-- `DefaultPrayerNames` (`internal/prayer/prayer.go`). -/
def DefaultPrayerNames : List String :=
  ["Fajr", "Sunrise", "Dhuhr", "Asr", "Maghrib", "Isha"]

/-- The `timingMap` literal of `ParseTimings`: a `map[string]string` lookup
with an `ok` flag over the eleven known keys. -/
def timingMap (t : Timings) (name : String) : Option (List Char) :=
  if name = "Fajr" then some t.Fajr
  else if name = "Sunrise" then some t.Sunrise
  else if name = "Dhuhr" then some t.Dhuhr
  else if name = "Asr" then some t.Asr
  else if name = "Sunset" then some t.Sunset
  else if name = "Maghrib" then some t.Maghrib
  else if name = "Isha" then some t.Isha
  else if name = "Imsak" then some t.Imsak
  else if name = "Midnight" then some t.Midnight
  else if name = "Firstthird" then some t.Firstthird
  else if name = "Lastthird" then some t.Lastthird
  else none

set_option maxHeartbeats 1000000 in
/-- The `timingMap` lookup fails exactly on names outside `AllPrayerNames`. -/
theorem timingMap_eq_none_iff (t : Timings) (name : String) :
    timingMap t name = none ↔ name ∉ AllPrayerNames := by
  simp only [timingMap, AllPrayerNames, List.mem_cons, List.not_mem_nil]
  split_ifs <;> simp_all

/-- `ParseTimings` (`internal/prayer/prayer.go`): walk the selected names in
order; look each up in the timing map (unknown name → error), parse its raw
string with `parseTimeStr` (failure → error), and collect one `Prayer` per
name; the first failure aborts with no partial result. -/
def ParseTimings (t : Timings) (date : GoTime) (loc : String) :
    List String → Except String (List Prayer)
  | [] => .ok []
  | name :: rest =>
    match timingMap t name with
    | none => .error ("unknown prayer name: " ++ name)
    | some raw =>
      match parseTimeStr raw date loc with
      | none => .error ("failed to parse time for " ++ name)
      | some tt =>
        match ParseTimings t date loc rest with
        | .error e => .error e
        | .ok ps => .ok ({ name := name, time := tt.instant } :: ps)

/-- A selected name makes `ParseTimings` fail when it is unknown or its raw
string does not parse. -/
def badName (t : Timings) (date : GoTime) (loc : String) (name : String) : Prop :=
  timingMap t name = none ∨
    ∃ raw, timingMap t name = some raw ∧ parseTimeStr raw date loc = none

/-- `ParseTimings` errors exactly when some selected name is bad. -/
theorem parseTimings_error_iff (t : Timings) (date : GoTime) (loc : String)
    (sel : List String) :
    (∃ e, ParseTimings t date loc sel = .error e) ↔
      ∃ name ∈ sel, badName t date loc name := by
  induction sel with
  | nil => simp [ParseTimings]
  | cons name rest ih =>
    cases hm : timingMap t name with
    | none =>
      simp only [ParseTimings, hm]
      constructor
      · intro _
        exact ⟨name, List.mem_cons_self name rest, Or.inl hm⟩
      · intro _
        exact ⟨_, rfl⟩
    | some raw =>
      cases hp : parseTimeStr raw date loc with
      | none =>
        simp only [ParseTimings, hm, hp]
        constructor
        · intro _
          exact ⟨name, List.mem_cons_self name rest, Or.inr ⟨raw, hm, hp⟩⟩
        · intro _
          exact ⟨_, rfl⟩
      | some tt =>
        cases hr : ParseTimings t date loc rest with
        | error e =>
          simp only [ParseTimings, hm, hp, hr]
          constructor
          · intro _
            obtain ⟨nm, hmem, hbad⟩ := ih.mp ⟨e, hr⟩
            exact ⟨nm, List.mem_cons_of_mem name hmem, hbad⟩
          · intro _
            exact ⟨e, rfl⟩
        | ok ps =>
          simp only [ParseTimings, hm, hp, hr]
          constructor
          · rintro ⟨e, he⟩
            exact absurd he (by simp)
          · rintro ⟨nm, hmem, hbad⟩
            rw [List.mem_cons] at hmem
            rcases hmem with rfl | hmem
            · rcases hbad with h1 | ⟨raw2, h2, h3⟩
              · rw [hm] at h1; exact absurd h1 (by simp)
              · rw [hm] at h2
                obtain rfl : raw = raw2 := by injection h2
                rw [hp] at h3
                exact absurd h3 (by simp)
            · obtain ⟨e, he⟩ := ih.mpr ⟨nm, hmem, hbad⟩
              rw [hr] at he
              exact absurd he (by simp)

/-- A successful `ParseTimings` yields exactly the selected names, in
selection order. -/
theorem parseTimings_ok_names (t : Timings) (date : GoTime) (loc : String)
    (sel : List String) (ps : List Prayer)
    (h : ParseTimings t date loc sel = .ok ps) :
    ps.map (fun p => p.name) = sel := by
  induction sel generalizing ps with
  | nil =>
    simp only [ParseTimings] at h
    injection h with h
    subst h
    rfl
  | cons name rest ih =>
    cases hm : timingMap t name with
    | none =>
      simp only [ParseTimings, hm] at h
      exact absurd h (by simp)
    | some raw =>
      cases hp : parseTimeStr raw date loc with
      | none =>
        simp only [ParseTimings, hm, hp] at h
        exact absurd h (by simp)
      | some tt =>
        cases hr : ParseTimings t date loc rest with
        | error e =>
          simp only [ParseTimings, hm, hp, hr] at h
          exact absurd h (by simp)
        | ok ps' =>
          simp only [ParseTimings, hm, hp, hr, Except.ok.injEq] at h
          subst h
          simp [ih ps' hr]

/-- Claim C10: `ParseTimings` errors (with no partial result — the result
type is a single `Except`) exactly when some selected name is unknown
(i.e. outside the eleven `AllPrayerNames`) or its raw time string fails to
parse; a success yields exactly one `Prayer` per selected name, in selection
order, each named by its selected name. -/
theorem C10_parseTimings_spec (t : Timings) (date : GoTime) (loc : String)
    (sel : List String) :
    ((∃ e, ParseTimings t date loc sel = .error e) ↔
      ∃ name ∈ sel, timingMap t name = none ∨
        ∃ raw, timingMap t name = some raw ∧ parseTimeStr raw date loc = none)
    ∧ (∀ name, timingMap t name = none ↔ name ∉ AllPrayerNames)
    ∧ (∀ ps, ParseTimings t date loc sel = .ok ps →
        ps.map (fun p => p.name) = sel) :=
  ⟨parseTimings_error_iff t date loc sel,
   fun name => timingMap_eq_none_iff t name,
   fun ps h => parseTimings_ok_names t date loc sel ps h⟩

/-- Witness for C10: a name outside the eleven known events is rejected by
the timing-map lookup. -/
theorem C10_witness :
    timingMap ⟨"05:17".toList, "06:45".toList, "12:13".toList, "15:02".toList,
      "17:39".toList, "17:39".toList, "19:10".toList, "05:07".toList,
      "23:55".toList, "21:49".toList, "02:01".toList⟩ "Bogus" = none :=
  ((C10_parseTimings_spec ⟨"05:17".toList, "06:45".toList, "12:13".toList,
    "15:02".toList, "17:39".toList, "17:39".toList, "19:10".toList,
    "05:07".toList, "23:55".toList, "21:49".toList, "02:01".toList⟩
    ⟨2026, 2, 28, 0, 0, 0, 0, "UTC"⟩ "UTC" []).2.1 "Bogus").mpr (by decide)

/-! ### Decimal rendering (`fmt` verbs `%d` and `%.6f`)

Latitude and longitude reach the cache key only through `%.6f`, so they are
modelled in micro-degrees (the resolution that survives the formatting);
`%.6f` for such a value is sign, integer part, `.`, and a six-digit
zero-padded fraction. -/

/-- The decimal digit character of `n` (callers pass `n < 10`; larger values
clamp to `'9'`). -/
def digitChar (n : Nat) : Char :=
  if n = 0 then '0' else if n = 1 then '1' else if n = 2 then '2'
  else if n = 3 then '3' else if n = 4 then '4' else if n = 5 then '5'
  else if n = 6 then '6' else if n = 7 then '7' else if n = 8 then '8'
  else '9'

/-- Decimal rendering of a natural number, most significant digit first. -/
def natDigits (n : Nat) : List Char :=
  if h : n < 10 then [digitChar n]
  else natDigits (n / 10) ++ [digitChar (n % 10)]
termination_by n
decreasing_by omega

/-- Value of a digit string (left fold, base ten). -/
def digitsToNat (l : List Char) : Nat :=
  l.foldl (fun acc c => acc * 10 + (c.toNat - 48)) 0

theorem digitChar_toNat : ∀ k < 10, (digitChar k).toNat = 48 + k := by decide

theorem digitChar_isDigit (k : Nat) : (digitChar k).isDigit = true := by
  unfold digitChar
  split_ifs <;> decide

theorem digitsToNat_append_digit (xs : List Char) (c : Char) :
    digitsToNat (xs ++ [c]) = 10 * digitsToNat xs + (c.toNat - 48) := by
  simp [digitsToNat, List.foldl_append]
  omega

/-- Rendering then evaluating a natural number is the identity. -/
theorem natDigits_val (n : Nat) : digitsToNat (natDigits n) = n := by
  induction n using Nat.strong_induction_on with
  | _ n ih =>
    rw [natDigits]
    by_cases h : n < 10
    · rw [dif_pos h]
      have := digitChar_toNat n h
      simp [digitsToNat]
      omega
    · rw [dif_neg h, digitsToNat_append_digit, ih (n / 10) (by omega)]
      have := digitChar_toNat (n % 10) (by omega)
      omega

/-- Decimal rendering of naturals is injective. -/
theorem natDigits_inj {a b : Nat} (h : natDigits a = natDigits b) : a = b := by
  have ha := natDigits_val a
  rw [h, natDigits_val b] at ha
  omega

/-- Every character of a decimal rendering is a digit. -/
theorem natDigits_isDigit (n : Nat) : ∀ c ∈ natDigits n, c.isDigit = true := by
  induction n using Nat.strong_induction_on with
  | _ n ih =>
    rw [natDigits]
    by_cases h : n < 10
    · rw [dif_pos h]
      intro c hc
      simp at hc
      subst hc
      exact digitChar_isDigit n
    · rw [dif_neg h]
      intro c hc
      rw [List.mem_append] at hc
      rcases hc with hc | hc
      · exact ih (n / 10) (by omega) c hc
      · simp at hc
        subst hc
        exact digitChar_isDigit (n % 10)

/-- A decimal rendering never starts with a non-digit separator character. -/
theorem natDigits_ne_nil (n : Nat) : natDigits n ≠ [] := by
  rw [natDigits]
  split_ifs <;> simp

/-- Leading zeros do not change the value of a digit string. -/
theorem digitsToNat_replicate_zero (k : Nat) (ds : List Char) :
    digitsToNat (List.replicate k '0' ++ ds) = digitsToNat ds := by
  induction k with
  | zero => simp
  | succ k ih =>
    rw [List.replicate_succ, List.cons_append]
    simpa [digitsToNat] using ih

/-- Zero-pad a decimal rendering on the left to width `k`. -/
def padTo (k : Nat) (n : Nat) : List Char :=
  List.replicate (k - (natDigits n).length) '0' ++ natDigits n

theorem padTo_val (k n : Nat) : digitsToNat (padTo k n) = n := by
  rw [padTo, digitsToNat_replicate_zero, natDigits_val]

theorem padTo_isDigit (k n : Nat) : ∀ c ∈ padTo k n, c.isDigit = true := by
  intro c hc
  rw [padTo, List.mem_append] at hc
  rcases hc with hc | hc
  · rw [List.eq_of_mem_replicate hc]
    decide
  · exact natDigits_isDigit n c hc

/-- `%d` rendering of an integer. -/
def intChars (v : Int) : List Char :=
  (if v < 0 then ['-'] else []) ++ natDigits v.natAbs

/-- `%.6f` rendering of a micro-degree coordinate value. -/
def fmtF6 (v : Int) : List Char :=
  (if v < 0 then ['-'] else []) ++
    (natDigits (v.natAbs / 1000000) ++ '.' :: padTo 6 (v.natAbs % 1000000))

/-- Splitting at a separator character absent from both left parts is
unambiguous. -/
theorem append_sep_inj (sep : Char) :
    ∀ (as bs cs ds : List Char), (∀ c ∈ as, c ≠ sep) → (∀ c ∈ bs, c ≠ sep) →
      as ++ sep :: cs = bs ++ sep :: ds → as = bs ∧ cs = ds := by
  intro as
  induction as with
  | nil =>
    intro bs cs ds _ hb h
    cases bs with
    | nil => simpa using h
    | cons b bt =>
      simp at h
      exact absurd h.1.symm (hb b (List.mem_cons_self b bt))
  | cons a at' ih =>
    intro bs cs ds ha hb h
    cases bs with
    | nil =>
      simp at h
      exact absurd h.1 (ha a (List.mem_cons_self a at'))
    | cons b bt =>
      simp at h
      obtain ⟨rfl, h2⟩ := h
      obtain ⟨h3, h4⟩ := ih bt cs ds
        (fun c hc => ha c (List.mem_cons_of_mem a hc))
        (fun c hc => hb c (List.mem_cons_of_mem a hc)) h2
      exact ⟨by rw [h3], h4⟩

/-- The sign-and-body rendering determines sign and magnitude, provided the
body never starts with the sign character. -/
theorem sign_digits_inj (f : Nat → List Char)
    (hhead : ∀ n c t, f n = c :: t → c ≠ '-')
    (hne : ∀ n, f n ≠ [])
    (hinj : ∀ {a b : Nat}, f a = f b → a = b) :
    ∀ {v w : Int},
      (if v < 0 then ['-'] else []) ++ f v.natAbs =
        (if w < 0 then ['-'] else []) ++ f w.natAbs → v = w := by
  intro v w h
  by_cases hv : v < 0 <;> by_cases hw : w < 0
  · rw [if_pos hv, if_pos hw] at h
    simp at h
    have := hinj h
    omega
  · rw [if_pos hv, if_neg hw] at h
    cases hfw : f w.natAbs with
    | nil => exact absurd hfw (hne w.natAbs)
    | cons c t =>
      rw [hfw] at h
      simp at h
      exact absurd h.1.symm (hhead w.natAbs c t hfw)
  · rw [if_neg hv, if_pos hw] at h
    cases hfv : f v.natAbs with
    | nil => exact absurd hfv (hne v.natAbs)
    | cons c t =>
      rw [hfv] at h
      simp at h
      exact absurd h.1 (hhead v.natAbs c t hfv)
  · rw [if_neg hv, if_neg hw] at h
    simp at h
    have := hinj h
    omega

/-- The head of a decimal rendering is a digit, hence not a separator. -/
theorem natDigits_head_ne (n : Nat) (c : Char) (t : List Char)
    (hf : natDigits n = c :: t) : c ≠ '-' := by
  intro hc
  have hd := natDigits_isDigit n c (hf ▸ List.mem_cons_self c t)
  rw [hc] at hd
  exact absurd hd (by decide)

/-- `%d` rendering is injective. -/
theorem intChars_inj {v w : Int} (h : intChars v = intChars w) : v = w :=
  sign_digits_inj natDigits natDigits_head_ne natDigits_ne_nil
    (fun hab => natDigits_inj hab) h

/-- The digits-dot-digits body of `%.6f` is injective. -/
theorem f6body_inj {a b : Nat}
    (h : natDigits (a / 1000000) ++ '.' :: padTo 6 (a % 1000000) =
      natDigits (b / 1000000) ++ '.' :: padTo 6 (b % 1000000)) : a = b := by
  have hsep := append_sep_inj '.' (natDigits (a / 1000000))
    (natDigits (b / 1000000)) (padTo 6 (a % 1000000)) (padTo 6 (b % 1000000))
    (fun c hc => by
      have := natDigits_isDigit _ c hc
      intro hcontra
      rw [hcontra] at this
      exact absurd this (by decide))
    (fun c hc => by
      have := natDigits_isDigit _ c hc
      intro hcontra
      rw [hcontra] at this
      exact absurd this (by decide)) h
  have h1 : a / 1000000 = b / 1000000 := natDigits_inj hsep.1
  have h2 : a % 1000000 = b % 1000000 := by
    have := congrArg digitsToNat hsep.2
    rwa [padTo_val, padTo_val] at this
  omega

/-- `%.6f` rendering (micro-degree model) is injective. -/
theorem fmtF6_inj {v w : Int} (h : fmtF6 v = fmtF6 w) : v = w :=
  sign_digits_inj
    (fun n => natDigits (n / 1000000) ++ '.' :: padTo 6 (n % 1000000))
    (fun n c t hf => by
      change natDigits (n / 1000000) ++ '.' :: padTo 6 (n % 1000000) = c :: t at hf
      cases hq : natDigits (n / 1000000) with
      | nil => exact absurd hq (natDigits_ne_nil _)
      | cons c0 t0 =>
        rw [hq, List.cons_append, List.cons.injEq] at hf
        exact hf.1 ▸ natDigits_head_ne _ c0 t0 hq)
    (fun n => by simp)
    (fun hab => f6body_inj hab) h

/-! ### The cache key (`cacheKey` in the cache package) -/

/-- Word truncation to 32 bits. -/
def w32 (n : Nat) : Nat := n % 4294967296

/-- 32-bit right rotation. -/
def rotr (n x : Nat) : Nat := (x / 2 ^ n + x % 2 ^ n * 2 ^ (32 - n)) % 4294967296

/-- SHA-256 initial hash values. -/
def shaH0 : List Nat :=
  [1779033703, 3144134277, 1013904242, 2773480762,
   1359893119, 2600822924, 528734635, 1541459225]

/-- SHA-256 round constants. -/
def shaK : List Nat :=
  [1116352408, 1899447441, 3049323471, 3921009573, 961987163, 1508970993,
   2453635748, 2870763221, 3624381080, 310598401, 607225278, 1426881987,
   1925078388, 2162078206, 2614888103, 3248222580, 3835390401, 4022224774,
   264347078, 604807628, 770255983, 1249150122, 1555081692, 1996064986,
   2554220882, 2821834349, 2952996808, 3210313671, 3336571891, 3584528711,
   113926993, 338241895, 666307205, 773529912, 1294757372, 1396182291,
   1695183700, 1986661051, 2177026350, 2456956037, 2730485921, 2820302411,
   3259730800, 3345764771, 3516065817, 3600352804, 4094571909, 275423344,
   430227734, 506948616, 659060556, 883997877, 958139571, 1322822218,
   1537002063, 1747873779, 1955562222, 2024104815, 2227730452, 2361852424,
   2428436474, 2756734187, 3204031479, 3329325298]

/-- SHA-256 message padding: `0x80`, zeros to 56 mod 64, 8-byte big-endian
bit length. -/
def padMessage (msg : List Nat) : List Nat :=
  let len := msg.length
  let bitLen := 8 * len
  let padZeros := (119 - len % 64) % 64
  msg ++ 128 :: List.replicate padZeros 0 ++
    [bitLen / 2 ^ 56 % 256, bitLen / 2 ^ 48 % 256, bitLen / 2 ^ 40 % 256,
     bitLen / 2 ^ 32 % 256, bitLen / 2 ^ 24 % 256, bitLen / 2 ^ 16 % 256,
     bitLen / 2 ^ 8 % 256, bitLen % 256]

/-- Big-endian 32-bit words of a byte list. -/
def bytesToWords : List Nat → List Nat
  | b0 :: b1 :: b2 :: b3 :: rest =>
    (((b0 * 256 + b1) * 256 + b2) * 256 + b3) :: bytesToWords rest
  | _ => []

/-- 64-byte blocks of a byte list. -/
def chunks64 (l : List Nat) : List (List Nat) :=
  if h : l = [] then []
  else l.take 64 :: chunks64 (l.drop 64)
termination_by l.length
decreasing_by
  cases l with
  | nil => exact absurd rfl h
  | cons a t =>
    simp only [List.length_drop, List.length_cons]
    omega

/-- SHA-256 lowercase sigma-0. -/
def ssig0 (x : Nat) : Nat := Nat.xor (Nat.xor (rotr 7 x) (rotr 18 x)) (x / 2 ^ 3)

/-- SHA-256 lowercase sigma-1. -/
def ssig1 (x : Nat) : Nat := Nat.xor (Nat.xor (rotr 17 x) (rotr 19 x)) (x / 2 ^ 10)

/-- Extend the 16-word block schedule by `n` further words. -/
def schedule : Nat → List Nat → List Nat
  | 0, w => w
  | n + 1, w =>
    let t := w32 (ssig1 (w.getD (w.length - 2) 0) + w.getD (w.length - 7) 0 +
      ssig0 (w.getD (w.length - 15) 0) + w.getD (w.length - 16) 0)
    schedule n (w ++ [t])

/-- One SHA-256 compression round on the eight working registers. -/
def shaRound (st : List Nat) (k : Nat) (wt : Nat) : List Nat :=
  match st with
  | [a, b, c, d, e, f, g, h] =>
    let bigS1 := Nat.xor (Nat.xor (rotr 6 e) (rotr 11 e)) (rotr 25 e)
    let ch := Nat.xor (Nat.land e f) (Nat.land (Nat.xor e 4294967295) g)
    let t1 := w32 (h + bigS1 + ch + k + wt)
    let bigS0 := Nat.xor (Nat.xor (rotr 2 a) (rotr 13 a)) (rotr 22 a)
    let mj := Nat.xor (Nat.xor (Nat.land a b) (Nat.land a c)) (Nat.land b c)
    let t2 := w32 (bigS0 + mj)
    [w32 (t1 + t2), a, b, c, w32 (d + t1), e, f, g]
  | _ => st

/-- Compress one 64-byte block into the running hash state. -/
def processBlock (hs : List Nat) (block : List Nat) : List Nat :=
  let w := schedule 48 (bytesToWords block)
  let st := (shaK.zip w).foldl (fun s kw => shaRound s kw.1 kw.2) hs
  (hs.zip st).map (fun p => w32 (p.1 + p.2))

/-- SHA-256 digest (32 bytes) of a byte list (`crypto/sha256.Sum256`).
Checked against the FIPS test vectors for `""`, `"abc"` and a two-block
message. -/
def sha256 (msg : List Nat) : List Nat :=
  let final := (chunks64 (padMessage msg)).foldl processBlock shaH0
  (final.map (fun wd =>
    [wd / 2 ^ 24 % 256, wd / 2 ^ 16 % 256, wd / 2 ^ 8 % 256, wd % 256])).flatten

/-- Lowercase hexadecimal digit. -/
def hexDigit (n : Nat) : Char :=
  if n = 0 then '0' else if n = 1 then '1' else if n = 2 then '2'
  else if n = 3 then '3' else if n = 4 then '4' else if n = 5 then '5'
  else if n = 6 then '6' else if n = 7 then '7' else if n = 8 then '8'
  else if n = 9 then '9' else if n = 10 then 'a' else if n = 11 then 'b'
  else if n = 12 then 'c' else if n = 13 then 'd' else if n = 14 then 'e'
  else 'f'

/-- Lowercase hex rendering of a byte list (`fmt.Sprintf("%x", ...)`). -/
def bytesToHex (bs : List Nat) : List Char :=
  (bs.map (fun b => [hexDigit (b / 16), hexDigit (b % 16)])).flatten

/-- UTF-8 bytes of one character. -/
def utf8Char (c : Char) : List Nat :=
  let n := c.toNat
  if n < 128 then [n]
  else if n < 2048 then [192 + n / 64, 128 + n % 64]
  else if n < 65536 then [224 + n / 4096, 128 + n / 64 % 64, 128 + n % 64]
  else [240 + n / 262144, 128 + n / 4096 % 64, 128 + n / 64 % 64, 128 + n % 64]

/-- UTF-8 bytes of a string (Go strings are UTF-8 byte slices). -/
def utf8Encode (s : List Char) : List Nat := (s.map utf8Char).flatten

/-- The pre-hash serialization of `cacheKey` (cache package):
`fmt.Sprintf("%s|%.6f|%.6f|%s|%s|%d|%d", date, lat, lon, city, country,
method, school)`. -/
def cacheKeyRaw (date : List Char) (lat lon : Int) (city country : List Char)
    (method school : Int) : List Char :=
  date ++ '|' :: (fmtF6 lat ++ '|' :: (fmtF6 lon ++ '|' ::
    (city ++ '|' :: (country ++ '|' ::
      (intChars method ++ '|' :: intChars school)))))

/-- `cacheKey` (cache package): the first 8 bytes of the SHA-256 digest of
the serialized parameter tuple, in lowercase hex (16 characters). -/
def cacheKey (date : List Char) (lat lon : Int) (city country : List Char)
    (method school : Int) : List Char :=
  bytesToHex ((sha256 (utf8Encode
    (cacheKeyRaw date lat lon city country method school))).take 8)

/-- Claim C3: the cache key is a deterministic function of exactly the tuple
(date, lat, lon, city, country, method, school) — identical tuples always
give identical keys, with no other input (wall-clock or randomness) in the
embedding — and a change to any single field changes the serialized hash
input (so the keys differ up to SHA-256 collisions, the "overwhelming
probability" clause). -/
theorem C3_cacheKey_spec :
    (∀ (date : List Char) (lat lon : Int) (city country : List Char)
        (method school : Int),
      cacheKey date lat lon city country method school =
        bytesToHex ((sha256 (utf8Encode
          (cacheKeyRaw date lat lon city country method school))).take 8))
    ∧ (∀ (d1 d2 : List Char) (la1 la2 lo1 lo2 : Int) (c1 c2 co1 co2 : List Char)
        (m1 m2 s1 s2 : Int),
        d1 = d2 → la1 = la2 → lo1 = lo2 → c1 = c2 → co1 = co2 → m1 = m2 →
        s1 = s2 →
        cacheKey d1 la1 lo1 c1 co1 m1 s1 = cacheKey d2 la2 lo2 c2 co2 m2 s2)
    ∧ (∀ (date : List Char) (lat lon : Int) (city country : List Char)
        (method school : Int) (d2 : List Char) (la2 lo2 : Int)
        (c2 co2 : List Char) (m2 s2 : Int),
        (date ≠ d2 →
          cacheKeyRaw date lat lon city country method school ≠
          cacheKeyRaw d2 lat lon city country method school)
        ∧ (lat ≠ la2 →
          cacheKeyRaw date lat lon city country method school ≠
          cacheKeyRaw date la2 lon city country method school)
        ∧ (lon ≠ lo2 →
          cacheKeyRaw date lat lon city country method school ≠
          cacheKeyRaw date lat lo2 city country method school)
        ∧ (city ≠ c2 →
          cacheKeyRaw date lat lon city country method school ≠
          cacheKeyRaw date lat lon c2 country method school)
        ∧ (country ≠ co2 →
          cacheKeyRaw date lat lon city country method school ≠
          cacheKeyRaw date lat lon city co2 method school)
        ∧ (method ≠ m2 →
          cacheKeyRaw date lat lon city country method school ≠
          cacheKeyRaw date lat lon city country m2 school)
        ∧ (school ≠ s2 →
          cacheKeyRaw date lat lon city country method school ≠
          cacheKeyRaw date lat lon city country method s2)) := by
  refine ⟨fun _ _ _ _ _ _ _ => rfl, ?_, ?_⟩
  · intro d1 d2 la1 la2 lo1 lo2 c1 c2 co1 co2 m1 m2 s1 s2 h1 h2 h3 h4 h5 h6 h7
    subst h1; subst h2; subst h3; subst h4; subst h5; subst h6; subst h7
    rfl
  · intro date lat lon city country method school d2 la2 lo2 c2 co2 m2 s2
    refine ⟨?_, ?_, ?_, ?_, ?_, ?_, ?_⟩ <;> intro hne heq <;>
      simp only [cacheKeyRaw] at heq
    · exact hne (List.append_cancel_right heq)
    · have h1 := List.append_cancel_left heq
      rw [List.cons.injEq] at h1
      exact hne (fmtF6_inj (List.append_cancel_right h1.2))
    · have h1 := List.append_cancel_left heq
      rw [List.cons.injEq] at h1
      have h2 := List.append_cancel_left h1.2
      rw [List.cons.injEq] at h2
      exact hne (fmtF6_inj (List.append_cancel_right h2.2))
    · have h1 := List.append_cancel_left heq
      rw [List.cons.injEq] at h1
      have h2 := List.append_cancel_left h1.2
      rw [List.cons.injEq] at h2
      have h3 := List.append_cancel_left h2.2
      rw [List.cons.injEq] at h3
      exact hne (List.append_cancel_right h3.2)
    · have h1 := List.append_cancel_left heq
      rw [List.cons.injEq] at h1
      have h2 := List.append_cancel_left h1.2
      rw [List.cons.injEq] at h2
      have h3 := List.append_cancel_left h2.2
      rw [List.cons.injEq] at h3
      have h4 := List.append_cancel_left h3.2
      rw [List.cons.injEq] at h4
      exact hne (List.append_cancel_right h4.2)
    · have h1 := List.append_cancel_left heq
      rw [List.cons.injEq] at h1
      have h2 := List.append_cancel_left h1.2
      rw [List.cons.injEq] at h2
      have h3 := List.append_cancel_left h2.2
      rw [List.cons.injEq] at h3
      have h4 := List.append_cancel_left h3.2
      rw [List.cons.injEq] at h4
      have h5 := List.append_cancel_left h4.2
      rw [List.cons.injEq] at h5
      exact hne (intChars_inj (List.append_cancel_right h5.2))
    · have h1 := List.append_cancel_left heq
      rw [List.cons.injEq] at h1
      have h2 := List.append_cancel_left h1.2
      rw [List.cons.injEq] at h2
      have h3 := List.append_cancel_left h2.2
      rw [List.cons.injEq] at h3
      have h4 := List.append_cancel_left h3.2
      rw [List.cons.injEq] at h4
      have h5 := List.append_cancel_left h4.2
      rw [List.cons.injEq] at h5
      have h6 := List.append_cancel_left h5.2
      rw [List.cons.injEq] at h6
      exact hne (intChars_inj h6.2)

/-- Witness for C3: changing only the method id changes the serialized hash
input. -/
theorem C3_witness :
    cacheKeyRaw "2026-02-28".toList 51507400 (-127800) [] [] 2 0 ≠
      cacheKeyRaw "2026-02-28".toList 51507400 (-127800) [] [] 3 0 :=
  ((C3_cacheKey_spec.2.2 "2026-02-28".toList 51507400 (-127800) [] [] 2 0
    "2026-02-28".toList 51507400 (-127800) [] [] 3 0).2.2.2.2.2.1) (by decide)

/-! ### The single-day timetable cache (`LoadTimings`) -/

/-- `api.Meta` (`internal/api/types.go`); coordinates in micro-degrees (the
resolution relevant to this model). -/
structure Meta where
  latitude : Int
  longitude : Int
  timezone : String
  methodId : Int
  methodName : String
  school : String
deriving Repr, DecidableEq, Inhabited

/-- `PrayerCacheEntry` (cache package): a day's timings with the validation
fields stored beside them. -/
structure PrayerCacheEntry where
  date : List Char
  method : Int
  school : Int
  timings : Timings
  meta : Meta
deriving Repr, DecidableEq

/-- The observable outcome of `os.ReadFile` followed by `json.Unmarshal` on
one path, at the collaborator boundary: the file is absent (read error), its
contents fail to decode, or it decodes to an entry. -/
inductive FileRead (α : Type)
  | absent
  | corrupt
  | entry (e : α)
deriving Repr, DecidableEq

/-- `date.Format("2006-01-02")` (zero-padded; the dates in play are CE). -/
def fmtDate (y mo d : Int) : List Char :=
  padTo 4 y.toNat ++ '-' :: padTo 2 mo.toNat ++ '-' :: padTo 2 d.toNat

/-- The cache file name `timings_%s.json` for a key. -/
def prayerCachePath (key : List Char) : List Char :=
  "timings_".toList ++ key ++ ".json".toList

/-- `LoadTimings` (cache package): compute the key and read the file; a read
failure or an unmarshal failure is a miss (`nil`) — the signature returns
only `*PrayerCacheEntry`, so no error can propagate; an entry whose stored
date differs from the requested date is stale and also a miss. -/
def LoadTimings (fs : List Char → FileRead PrayerCacheEntry) (date : GoTime)
    (lat lon : Int) (city country : List Char) (method school : Int) :
    Option PrayerCacheEntry :=
  let dateStr := fmtDate date.year date.month date.day
  let key := cacheKey dateStr lat lon city country method school
  match fs (prayerCachePath key) with
  | .absent => none
  | .corrupt => none
  | .entry e => if e.date = dateStr then some e else none

/-- Claim C4: `LoadTimings` never errors (its result type has no error
component); an absent file, an unparseable file, or a stored-date mismatch
each yield a miss (`none`); and a hit `some e` happens only for an entry
actually read whose stored date equals the requested date. -/
theorem C4_loadTimings_spec (fs : List Char → FileRead PrayerCacheEntry)
    (date : GoTime) (lat lon : Int) (city country : List Char)
    (method school : Int) :
    (fs (prayerCachePath (cacheKey (fmtDate date.year date.month date.day)
        lat lon city country method school)) = .absent →
      LoadTimings fs date lat lon city country method school = none)
    ∧ (fs (prayerCachePath (cacheKey (fmtDate date.year date.month date.day)
        lat lon city country method school)) = .corrupt →
      LoadTimings fs date lat lon city country method school = none)
    ∧ (∀ e, fs (prayerCachePath (cacheKey (fmtDate date.year date.month
          date.day) lat lon city country method school)) = .entry e →
        e.date ≠ fmtDate date.year date.month date.day →
        LoadTimings fs date lat lon city country method school = none)
    ∧ (∀ e, LoadTimings fs date lat lon city country method school = some e →
        e.date = fmtDate date.year date.month date.day ∧
        fs (prayerCachePath (cacheKey (fmtDate date.year date.month date.day)
          lat lon city country method school)) = .entry e) := by
  refine ⟨fun h => ?_, fun h => ?_, fun e he hne => ?_, fun e he => ?_⟩
  · simp only [LoadTimings, h]
  · simp only [LoadTimings, h]
  · simp only [LoadTimings, he, if_neg hne]
  · simp only [LoadTimings] at he
    cases hread : fs (prayerCachePath (cacheKey (fmtDate date.year date.month
        date.day) lat lon city country method school)) with
    | absent => rw [hread] at he; exact absurd he (by simp)
    | corrupt => rw [hread] at he; exact absurd he (by simp)
    | entry e2 =>
      rw [hread] at he
      change (if e2.date = fmtDate date.year date.month date.day
        then some e2 else none) = some e at he
      by_cases hd : e2.date = fmtDate date.year date.month date.day
      · rw [if_pos hd] at he
        injection he with he
        subst he
        exact ⟨hd, by simp [hread]⟩
      · rw [if_neg hd] at he
        exact absurd he (by simp)

/-- Witness for C4: an absent cache file is a miss. -/
theorem C4_witness :
    LoadTimings (fun _ => FileRead.absent) ⟨2026, 2, 28, 0, 0, 0, 0, "UTC"⟩
      51507400 (-127800) [] [] 2 0 = none :=
  (C4_loadTimings_spec (fun _ => FileRead.absent)
    ⟨2026, 2, 28, 0, 0, 0, 0, "UTC"⟩ 51507400 (-127800) [] [] 2 0).1 rfl

/-! ### The output formatter (`FormatOutput`) -/

/-- `ShortNames` (`internal/prayer/prayer.go`): map lookup; a Go map access
yields the zero value `""` for an unknown key. -/
def ShortNames (name : String) : String :=
  if name = "Fajr" then "F"
  else if name = "Sunrise" then "S"
  else if name = "Dhuhr" then "D"
  else if name = "Asr" then "A"
  else if name = "Sunset" then "St"
  else if name = "Maghrib" then "M"
  else if name = "Isha" then "I"
  else if name = "Imsak" then "Im"
  else if name = "Midnight" then "Mi"
  else if name = "Firstthird" then "F3"
  else if name = "Lastthird" then "L3"
  else ""

/-- The seven format-mode constants of the format file. -/
def FormatTimeRemaining : String := "time-remaining"

/-- Mode constant `next-prayer-time`. -/
def FormatNextPrayerTime : String := "next-prayer-time"

/-- Mode constant `name-and-time`. -/
def FormatNameAndTime : String := "name-and-time"

/-- Mode constant `name-and-remaining`. -/
def FormatNameAndRemaining : String := "name-and-remaining"

/-- Mode constant `short-name-and-time`. -/
def FormatShortNameAndTime : String := "short-name-and-time"

/-- Mode constant `short-name-and-remaining`. -/
def FormatShortNameAndRemain : String := "short-name-and-remaining"

/-- Mode constant `full`. -/
def FormatFull : String := "full"

/-- `TimeRemaining` (`internal/prayer/prayer.go`): `prayer.Time.Sub(now)`. -/
def TimeRemaining (p : Prayer) (now : Int) : Int := p.time - now

/-- `FormatData` (format file): the six fields exposed to user templates. -/
structure FormatData where
  Name : String
  ShortName : String
  Time : String
  Remaining : String
  Hours : Int
  Minutes : Int
deriving Repr, DecidableEq

/-- `formatCustom` (format file), with the `text/template` engine at its
collaborator boundary (one oracle covers both the parse and the execute
step): an engine failure yields the inline `template-err: ` diagnostic, never
an error or panic. -/
def formatCustom (tmplEngine : String → FormatData → Except String String)
    (tmpl : String) (data : FormatData) : String :=
  match tmplEngine tmpl data with
  | .error e => "template-err: " ++ e
  | .ok s => s

/-- The left brace character. -/
def lbrace : Char := Char.ofNat 123

/-- `strings.Contains(mode, "\x7b\x7b")`. -/
def containsBraces : List Char → Bool
  | c1 :: c2 :: rest => (c1 == lbrace && c2 == lbrace) || containsBraces (c2 :: rest)
  | _ => false

/-- The `FormatData` record built by `FormatOutput`: field values as in the
source, with `int(d.Hours())` and `int(d.Minutes()) % 60` as the `float64`
truncations `intHours` / `intMinutes` and Go truncated remainder. -/
def mkFormatData (fmtTime : Int → String → String) (p : Prayer) (now : Int)
    (timeFormat : String) : FormatData :=
  let d := TimeRemaining p now
  { Name := p.name,
    ShortName := ShortNames p.name,
    Time := fmtTime p.time timeFormat,
    Remaining := FormatRemaining d,
    Hours := intHours d,
    Minutes := Int.tmod (intMinutes d) 60 }

/-- `FormatOutput` (format file): template mode when the mode string contains
`\x7b\x7b`, else the seven literal modes, else the name-and-time fallback.
`time.Time.Format` is the `fmtTime` collaborator argument. -/
def FormatOutput (tmplEngine : String → FormatData → Except String String)
    (fmtTime : Int → String → String) (p : Prayer) (now : Int)
    (mode timeFormat : String) : String :=
  let remaining := FormatRemaining (TimeRemaining p now)
  let timeStr := fmtTime p.time timeFormat
  let short := ShortNames p.name
  if containsBraces mode.toList then
    formatCustom tmplEngine mode (mkFormatData fmtTime p now timeFormat)
  else if mode = FormatTimeRemaining then remaining
  else if mode = FormatNextPrayerTime then timeStr
  else if mode = FormatNameAndTime then p.name ++ " " ++ timeStr
  else if mode = FormatNameAndRemaining then p.name ++ " " ++ remaining
  else if mode = FormatShortNameAndTime then short ++ " " ++ timeStr
  else if mode = FormatShortNameAndRemain then short ++ " " ++ remaining
  else if mode = FormatFull then
    p.name ++ " " ++ timeStr ++ " (" ++ remaining ++ ")"
  else p.name ++ " " ++ timeStr

/-- Claim C9: `FormatOutput` is total (it returns a string for every prayer,
instant, mode and layout — by construction of the embedding): in template
mode (mode contains two left braces) an engine failure is rendered as a
string prefixed `template-err: ` rather than raised, and an engine success is
returned as is; a literal mode that matches none of the seven recognized
names falls back to the name-and-time rendering. -/
theorem C9_formatOutput_spec
    (tmplEngine : String → FormatData → Except String String)
    (fmtTime : Int → String → String) (p : Prayer) (now : Int)
    (mode timeFormat : String) :
    (containsBraces mode.toList = true →
      (∀ e, tmplEngine mode (mkFormatData fmtTime p now timeFormat) =
          .error e →
        FormatOutput tmplEngine fmtTime p now mode timeFormat =
          "template-err: " ++ e)
      ∧ (∀ s, tmplEngine mode (mkFormatData fmtTime p now timeFormat) =
          .ok s →
        FormatOutput tmplEngine fmtTime p now mode timeFormat = s))
    ∧ (containsBraces mode.toList = false →
      mode ∉ [FormatTimeRemaining, FormatNextPrayerTime, FormatNameAndTime,
        FormatNameAndRemaining, FormatShortNameAndTime,
        FormatShortNameAndRemain, FormatFull] →
      FormatOutput tmplEngine fmtTime p now mode timeFormat =
        p.name ++ " " ++ fmtTime p.time timeFormat) := by
  constructor
  · intro hbrace
    constructor
    · intro e he
      simp only [FormatOutput, hbrace, if_true, formatCustom, he]
    · intro s hs
      simp only [FormatOutput, hbrace, if_true, formatCustom, hs]
  · intro hbrace hnot
    simp only [List.mem_cons, List.not_mem_nil, or_false] at hnot
    push_neg at hnot
    obtain ⟨h1, h2, h3, h4, h5, h6, h7⟩ := hnot
    simp only [FormatOutput, hbrace, Bool.false_eq_true, if_false,
      if_neg h1, if_neg h2, if_neg h3, if_neg h4, if_neg h5, if_neg h6,
      if_neg h7]

/-- Witness for C9: a failing template renders the inline diagnostic. -/
theorem C9_witness :
    FormatOutput (fun _ _ => Except.error "boom") (fun _ _ => "15:02")
      ⟨"Asr", 0⟩ 0 "\x7b\x7bbad" "15:04" = "template-err: boom" :=
  ((C9_formatOutput_spec (fun _ _ => Except.error "boom") (fun _ _ => "15:02")
    ⟨"Asr", 0⟩ 0 "\x7b\x7bbad" "15:04").1 (by decide)).1 "boom" rfl

/-! ### Location resolution (`resolveLocation`) and the geolocation cache -/

/-- `geo.Location` (geo package); coordinates in micro-degrees. -/
structure Location where
  latitude : Int
  longitude : Int
  city : String
  country : String
  timezone : String
deriving Repr, DecidableEq

/-- `GeoCacheEntry` (cache package): a cached geolocation with its
timestamp. -/
structure GeoCacheEntry where
  location : Location
  cachedAt : Int
deriving Repr, DecidableEq

/-- `geoTTL = 24 * time.Hour` in nanoseconds. -/
def geoTTLNs : Int := 86400000000000

/-- `LoadGeo` (cache package): read `geolocation.json`; absent or corrupt
is a miss, and so is an entry older than the 24h TTL
(`time.Since(entry.CachedAt) > geoTTL`). -/
def LoadGeo (fs : List Char → FileRead GeoCacheEntry) (now : Int) :
    Option Location :=
  match fs "geolocation.json".toList with
  | .absent => none
  | .corrupt => none
  | .entry e => if now - e.cachedAt > geoTTLNs then none else some e.location

/-- `locationMode` (cli next file). -/
inductive LocationMode
  | coords
  | city
  | auto
deriving Repr, DecidableEq

/-- `resolvedLocation` (cli next file); unset Go struct fields hold their
zero values. -/
structure ResolvedLocation where
  mode : LocationMode
  lat : Int
  lon : Int
  city : String
  country : String
  timezone : String
deriving Repr, DecidableEq

/-- Which external effects a resolution performed (reads of the geolocation
cache, the IP auto-detect call, the best-effort cache write). -/
structure ResolveEffects where
  cacheRead : Bool
  detectCalled : Bool
  saveAttempted : Bool
deriving Repr, DecidableEq

/-- `resolveLocation` (cli next file): first-match-wins chain over explicit
coordinates, named place, cached geolocation, IP auto-detect. `c != nil` is
`cacheEnabled`; `geo.DetectLocation()` is the `detect` argument; the
`SaveGeo` result is `saveResult` and is discarded by the source
(`_ = c.SaveGeo(detected)`). -/
def resolveLocation (lat lon : Int) (city country : String)
    (cacheEnabled : Bool) (fs : List Char → FileRead GeoCacheEntry)
    (now : Int) (detect : Except String Location)
    (saveResult : Except String Unit) :
    Except String (ResolvedLocation × ResolveEffects) :=
  if lat ≠ 0 ∨ lon ≠ 0 then
    .ok ({ mode := .coords, lat := lat, lon := lon, city := "", country := "",
           timezone := "" },
         { cacheRead := false, detectCalled := false, saveAttempted := false })
  else if city ≠ "" then
    if country = "" then .error "--country is required when using --city"
    else
      .ok ({ mode := .city, lat := 0, lon := 0, city := city,
             country := country, timezone := "" },
           { cacheRead := false, detectCalled := false,
             saveAttempted := false })
  else
    match (if cacheEnabled then LoadGeo fs now else none) with
    | some cached =>
      .ok ({ mode := .coords, lat := cached.latitude, lon := cached.longitude,
             city := "", country := "", timezone := cached.timezone },
           { cacheRead := true, detectCalled := false,
             saveAttempted := false })
    | none =>
      match detect with
      | .error e =>
        .error ("no location specified and auto-detection failed: " ++ e)
      | .ok dl =>
        .ok ({ mode := .coords, lat := dl.latitude, lon := dl.longitude,
               city := "", country := "", timezone := dl.timezone },
             { cacheRead := cacheEnabled, detectCalled := true,
               saveAttempted := cacheEnabled })

/-- Claim C6: the resolution chain is first-match-wins: non-zero explicit
coordinates are used exactly as given, with no cache read, no detection and
no write; a place without a country fails with the missing-country error; a
non-expired cached geolocation (the TTL semantics of `LoadGeo` are part of
the statement) is used next; otherwise IP detection is used, its success is
written back best-effort (the conclusion does not depend on `saveResult`,
which is universally quantified) and its failure fails the resolution. -/
theorem C6_resolveLocation_spec (lat lon : Int) (city country : String)
    (cacheEnabled : Bool) (fs : List Char → FileRead GeoCacheEntry)
    (now : Int) (detect : Except String Location)
    (saveResult : Except String Unit) :
    ((lat ≠ 0 ∨ lon ≠ 0) →
      resolveLocation lat lon city country cacheEnabled fs now detect
          saveResult =
        .ok ({ mode := .coords, lat := lat, lon := lon, city := "",
               country := "", timezone := "" },
             { cacheRead := false, detectCalled := false,
               saveAttempted := false }))
    ∧ (lat = 0 → lon = 0 → city ≠ "" → country = "" →
      resolveLocation lat lon city country cacheEnabled fs now detect
          saveResult =
        .error "--country is required when using --city")
    ∧ (∀ e, fs "geolocation.json".toList = .entry e →
        (now - e.cachedAt ≤ geoTTLNs → LoadGeo fs now = some e.location)
        ∧ (now - e.cachedAt > geoTTLNs → LoadGeo fs now = none))
    ∧ (lat = 0 → lon = 0 → city = "" → cacheEnabled = true →
      ∀ cached, LoadGeo fs now = some cached →
      resolveLocation lat lon city country cacheEnabled fs now detect
          saveResult =
        .ok ({ mode := .coords, lat := cached.latitude,
               lon := cached.longitude, city := "", country := "",
               timezone := cached.timezone },
             { cacheRead := true, detectCalled := false,
               saveAttempted := false }))
    ∧ (lat = 0 → lon = 0 → city = "" →
      (if cacheEnabled then LoadGeo fs now else none) = none →
      ∀ dl, detect = .ok dl →
      resolveLocation lat lon city country cacheEnabled fs now detect
          saveResult =
        .ok ({ mode := .coords, lat := dl.latitude, lon := dl.longitude,
               city := "", country := "", timezone := dl.timezone },
             { cacheRead := cacheEnabled, detectCalled := true,
               saveAttempted := cacheEnabled }))
    ∧ (lat = 0 → lon = 0 → city = "" →
      (if cacheEnabled then LoadGeo fs now else none) = none →
      ∀ e, detect = .error e →
      resolveLocation lat lon city country cacheEnabled fs now detect
          saveResult =
        .error ("no location specified and auto-detection failed: " ++ e)) := by
  refine ⟨?_, ?_, ?_, ?_, ?_, ?_⟩
  · intro h
    simp only [resolveLocation, if_pos h]
  · intro h1 h2 h3 h4
    subst h1; subst h2
    simp only [resolveLocation]
    rw [if_neg (by simp), if_pos h3, if_pos h4]
  · intro e he
    constructor
    · intro h
      have hc : ¬ (now - e.cachedAt > geoTTLNs) := by omega
      simp only [LoadGeo, he, if_neg hc]
    · intro h
      simp only [LoadGeo, he, if_pos h]
  · intro h1 h2 h3 h4 cached hc
    subst h1; subst h2; subst h3; subst h4
    simp only [resolveLocation, if_true, hc]
    rw [if_neg (by simp), if_neg (by simp)]
  · intro h1 h2 h3 h4 dl hd
    subst h1; subst h2; subst h3
    simp only [resolveLocation, h4, hd]
    rw [if_neg (by simp), if_neg (by simp)]
  · intro h1 h2 h3 h4 e hd
    subst h1; subst h2; subst h3
    simp only [resolveLocation, h4, hd]
    rw [if_neg (by simp), if_neg (by simp)]

/-- Witness for C6: explicit coordinates win the chain with no effects. -/
theorem C6_witness :
    resolveLocation 51507400 (-127800) "" "" true (fun _ => FileRead.absent)
      0 (Except.error "down") (Except.ok ()) =
      Except.ok ({ mode := .coords, lat := 51507400, lon := -127800,
                   city := "", country := "", timezone := "" },
                 { cacheRead := false, detectCalled := false,
                   saveAttempted := false }) :=
  (C6_resolveLocation_spec 51507400 (-127800) "" "" true
    (fun _ => FileRead.absent) 0 (Except.error "down") (Except.ok ())).1
    (by decide)

/-! ### Next-prayer resolution (`runNext` / `run`), from the parse of
today's list onward

The identical rollover logic appears in the cli `runNext` handler and in
`cmd/tmux-prayer-times/main.go` `run`. The model starts after today's list
has been parsed and `now` re-anchored: `prayers` is today's parsed list,
`tomorrowFetch` the outcome of `fetchTimings(tomorrow, ...)`, and the result
is the printed output (`.ok`) or the propagated error (`.error`). -/

/-- The next-prayer resolution tail of `runNext`: select the next prayer; if
all of today's prayers have passed, fetch tomorrow — on fetch failure print
the last prayer with the `--:--` marker (exit without error) when today's
list is non-empty, else propagate the wrapped fetch error; on fetch success
parse tomorrow and take its first entry; an empty parse is the
could-not-determine error. -/
def runNextResolve (tmplEngine : String → FormatData → Except String String)
    (fmtTime : Int → String → String) (prayers : List Prayer) (now : Int)
    (tomorrowFetch : Except String Timings) (tomorrow : GoTime)
    (tzLoc : String) (sel : List String) (mode timeFormat : String) :
    Except String String :=
  match NextPrayer prayers now with
  | some next => .ok (FormatOutput tmplEngine fmtTime next now mode timeFormat)
  | none =>
    match tomorrowFetch with
    | .error e =>
      match prayers with
      | [] => .error ("failed to fetch tomorrow's times: " ++ e)
      | q :: qs =>
        .ok (((q :: qs).getLast (List.cons_ne_nil q qs)).name ++ " --:--")
    | .ok tTimings =>
      match ParseTimings tTimings tomorrow tzLoc sel with
      | .error e => .error e
      | .ok tomorrowPrayers =>
        match tomorrowPrayers with
        | [] => .error "could not determine next prayer"
        | p :: _ =>
          .ok (FormatOutput tmplEngine fmtTime p now mode timeFormat)

/-- Claim C2: when every prayer of today's parsed list is at or before `now`
and tomorrow's fetch fails: a non-empty list reports its last prayer with the
explicit `--:--` unknown-time marker and the run succeeds (no error); an
empty list propagates the wrapped fetch error. -/
theorem C2_rollover_degraded
    (tmplEngine : String → FormatData → Except String String)
    (fmtTime : Int → String → String) (prayers : List Prayer) (now : Int)
    (e : String) (tomorrow : GoTime) (tzLoc : String) (sel : List String)
    (mode timeFormat : String)
    (hall : ∀ p ∈ prayers, p.time ≤ now) :
    (∀ q, prayers.getLast? = some q →
      runNextResolve tmplEngine fmtTime prayers now (.error e) tomorrow
        tzLoc sel mode timeFormat = .ok (q.name ++ " --:--"))
    ∧ (prayers = [] →
      runNextResolve tmplEngine fmtTime prayers now (.error e) tomorrow
        tzLoc sel mode timeFormat =
        .error ("failed to fetch tomorrow's times: " ++ e)) := by
  have hnone : NextPrayer prayers now = none :=
    (nextPrayer_eq_none_iff prayers now).mpr hall
  constructor
  · intro q hq
    cases prayers with
    | nil => simp at hq
    | cons a t =>
      simp only [runNextResolve, hnone]
      rw [List.getLast?_eq_getLast_of_ne_nil (List.cons_ne_nil a t)] at hq
      injection hq with hq
      rw [hq]
  · intro h
    subst h
    simp only [runNextResolve, hnone]

/-- Witness for C2: all of today's prayers passed, tomorrow's fetch fails,
today's list non-empty: the output is the last prayer with `--:--`. -/
theorem C2_witness :
    runNextResolve (fun _ _ => Except.error "no engine") (fun _ _ => "")
      [⟨"Fajr", 10⟩, ⟨"Isha", 20⟩] 25 (Except.error "net down")
      ⟨2026, 3, 1, 0, 0, 0, 0, "UTC"⟩ "UTC" [] "full" "15:04" =
      Except.ok ("Isha --:--") :=
  (C2_rollover_degraded (fun _ _ => Except.error "no engine") (fun _ _ => "")
    [⟨"Fajr", 10⟩, ⟨"Isha", 20⟩] 25 "net down" ⟨2026, 3, 1, 0, 0, 0, 0, "UTC"⟩
    "UTC" [] "full" "15:04" (by decide)).1 ⟨"Isha", 20⟩ (by decide)

/-! ### Multi-day listing (`fetchCalendarDays`)

`fetchCalendarDays` (cli list file) groups the requested consecutive days
into distinct `(year, month)` pairs, loads each month once (cache first,
then the calendar API), and slices each day out of its month by the
zero-based `d.Day() - 1` index. `cache.LoadCalendar` and the two calendar
fetches are collaborators here (the calendar cache implementation is not
part of this handler) and appear as the `calCache` and `apiFetch`
arguments; `c != nil` is `cacheEnabled`. Go's map iteration order over the
needed set is unspecified; the model fixes first-occurrence order, which only
affects which month's fetch error is reported when several months fail. -/

/-- `api.DateInfo` (`internal/api/types.go`). -/
structure DateInfo where
  readable : String
  timestamp : String
deriving Repr, DecidableEq, Inhabited

/-- `api.Data`: one calendar day of the provider response. -/
structure ApiData where
  timings : Timings
  date : DateInfo
  meta : Meta
deriving Repr, DecidableEq, Inhabited

/-- `dayData` (cli list file). -/
structure DayData where
  date : GoTime
  timings : Timings
  dateInfo : DateInfo
  meta : Meta
deriving Repr, DecidableEq

/-- `Time.AddDate(years, months, days)`: per Go, adds the offsets to the
civil fields and renormalizes through `time.Date`. -/
def addDate (t : GoTime) (years months days : Int) : GoTime :=
  goDate (t.year + years) (t.month + months) (t.day + days)
    t.hour t.minute t.second t.nano t.loc

/-- The `yearMonth` key of a day. -/
def yearMonthOf (t : GoTime) : Int × Int := (t.year, t.month)

/-- The distinct `(year, month)` pairs needed for `days` consecutive days
from `start` (the `needed` set, in first-occurrence order). -/
def neededMonths (start : GoTime) (days : Nat) : List (Int × Int) :=
  ((List.range days).map
    (fun (i : Nat) => yearMonthOf (addDate start 0 0 (i : Int)))).dedup

/-- `fmt` rendering `%d-%02d` of a year-month pair. -/
def fmtYearMonth (ym : Int × Int) : String :=
  String.mk (intChars ym.1) ++ "-" ++ String.mk (padTo 2 ym.2.toNat)

/-- The month-loading loop of `fetchCalendarDays`: for each needed month, a
cache hit supplies its day list, otherwise the calendar API is fetched (a
fetch failure aborts with the wrapped error). Returns the month data
together with the list of months actually fetched from the API. -/
def fetchMonths (calCache : Int × Int → Option (List ApiData))
    (apiFetch : Int × Int → Except String (List ApiData))
    (cacheEnabled : Bool) :
    List (Int × Int) →
      Except String (List ((Int × Int) × List ApiData) × List (Int × Int))
  | [] => .ok ([], [])
  | ym :: rest =>
    match (if cacheEnabled then calCache ym else none) with
    | some entryDays =>
      match fetchMonths calCache apiFetch cacheEnabled rest with
      | .error e => .error e
      | .ok (assoc, fetched) => .ok ((ym, entryDays) :: assoc, fetched)
    | none =>
      match apiFetch ym with
      | .error e =>
        .error ("failed to fetch calendar for " ++ fmtYearMonth ym ++ ": " ++ e)
      | .ok respDays =>
        match fetchMonths calCache apiFetch cacheEnabled rest with
        | .error e => .error e
        | .ok (assoc, fetched) =>
          .ok ((ym, respDays) :: assoc, ym :: fetched)

/-- `monthData[ym]`: Go map access with the zero value (nil slice) for a
missing key. -/
def monthLookup (assoc : List ((Int × Int) × List ApiData))
    (ym : Int × Int) : List ApiData :=
  match assoc.find? (fun p => p.1 == ym) with
  | some p => p.2
  | none => []

/-- The day record sliced out of its month by the zero-based
`d.Day() - 1` index. -/
def dayFromIndex (start : GoTime)
    (assoc : List ((Int × Int) × List ApiData)) (i : Nat) : DayData :=
  let d := addDate start 0 0 i
  let lst := monthLookup assoc (yearMonthOf d)
  let a := lst.getD (d.day - 1).toNat default
  { date := d, timings := a.timings, dateInfo := a.date, meta := a.meta }

/-- Day `i` has an in-range `d.Day() - 1` index into its month's day list. -/
def dayInBounds (start : GoTime)
    (assoc : List ((Int × Int) × List ApiData)) (i : Nat) : Prop :=
  0 ≤ (addDate start 0 0 i).day - 1 ∧
    (addDate start 0 0 i).day - 1 <
      ((monthLookup assoc (yearMonthOf (addDate start 0 0 i))).length : Int)

instance (start : GoTime) (assoc : List ((Int × Int) × List ApiData))
    (i : Nat) : Decidable (dayInBounds start assoc i) := by
  unfold dayInBounds
  infer_instance

/-- The assembly loop of `fetchCalendarDays`: walk the day offsets in order;
an out-of-range `d.Day() - 1` index is a hard error (the
`day %d out of range` message), otherwise the day record is sliced out. -/
def assembleDays (start : GoTime)
    (assoc : List ((Int × Int) × List ApiData)) :
    List Nat → Except String (List DayData)
  | [] => .ok []
  | i :: rest =>
    let d := addDate start 0 0 i
    let lst := monthLookup assoc (yearMonthOf d)
    if d.day - 1 < 0 ∨ (lst.length : Int) ≤ d.day - 1 then
      .error ("day " ++ String.mk (intChars d.day) ++ " out of range for " ++
        fmtYearMonth (yearMonthOf d) ++ " (got " ++
        String.mk (intChars (lst.length : Int)) ++ " days)")
    else
      match assembleDays start assoc rest with
      | .error e => .error e
      | .ok ds => .ok (dayFromIndex start assoc i :: ds)

/-- `fetchCalendarDays` (cli list file): load every needed month once, then
assemble the `days` consecutive day records; also reports which months were
fetched from the API. -/
def fetchCalendarDays (start : GoTime) (days : Nat)
    (calCache : Int × Int → Option (List ApiData))
    (apiFetch : Int × Int → Except String (List ApiData))
    (cacheEnabled : Bool) :
    Except String (List DayData × List (Int × Int)) :=
  match fetchMonths calCache apiFetch cacheEnabled
      (neededMonths start days) with
  | .error e => .error e
  | .ok (assoc, fetched) =>
    match assembleDays start assoc (List.range days) with
    | .error e => .error e
    | .ok ds => .ok (ds, fetched)

/-- A successful month-loading pass covers exactly the requested months, in
order, and the API-fetched ones are exactly the cache misses. -/
theorem fetchMonths_ok (calCache : Int × Int → Option (List ApiData))
    (apiFetch : Int × Int → Except String (List ApiData))
    (cacheEnabled : Bool) :
    ∀ (L : List (Int × Int)) assoc fetched,
      fetchMonths calCache apiFetch cacheEnabled L = .ok (assoc, fetched) →
      assoc.map Prod.fst = L ∧
      fetched = L.filter
        (fun ym => (if cacheEnabled then calCache ym else none).isNone) := by
  intro L
  induction L with
  | nil =>
    intro assoc fetched h
    simp only [fetchMonths, Except.ok.injEq] at h
    obtain ⟨h1, h2⟩ := Prod.mk.injEq .. ▸ h
    exact ⟨by simp [← h1], by simp [← h2]⟩
  | cons ym rest ih =>
    intro assoc fetched h
    cases hc : (if cacheEnabled then calCache ym else none) with
    | some entryDays =>
      simp only [fetchMonths, hc] at h
      cases hr : fetchMonths calCache apiFetch cacheEnabled rest with
      | error e => rw [hr] at h; exact absurd h (by simp)
      | ok p =>
        obtain ⟨assoc', fetched'⟩ := p
        rw [hr] at h
        simp only [Except.ok.injEq, Prod.mk.injEq] at h
        obtain ⟨h1, h2⟩ := h
        obtain ⟨ha, hf⟩ := ih assoc' fetched' hr
        subst h1; subst h2
        refine ⟨by simp [ha], ?_⟩
        rw [List.filter_cons]
        simp only [hc, Option.isNone_some]
        exact hf ▸ rfl
    | none =>
      simp only [fetchMonths, hc] at h
      cases hapi : apiFetch ym with
      | error e => rw [hapi] at h; exact absurd h (by simp)
      | ok respDays =>
        rw [hapi] at h
        cases hr : fetchMonths calCache apiFetch cacheEnabled rest with
        | error e => rw [hr] at h; exact absurd h (by simp)
        | ok p =>
          obtain ⟨assoc', fetched'⟩ := p
          rw [hr] at h
          simp only [Except.ok.injEq, Prod.mk.injEq] at h
          obtain ⟨h1, h2⟩ := h
          obtain ⟨ha, hf⟩ := ih assoc' fetched' hr
          subst h1; subst h2
          refine ⟨by simp [ha], ?_⟩
          rw [List.filter_cons]
          simp only [hc, Option.isNone_none]
          exact hf ▸ rfl

/-- After a successful month-loading pass, looking a requested month up
yields its cache entry on a hit, and the API response on a miss. -/
theorem fetchMonths_lookup (calCache : Int × Int → Option (List ApiData))
    (apiFetch : Int × Int → Except String (List ApiData))
    (cacheEnabled : Bool) :
    ∀ (L : List (Int × Int)) assoc fetched,
      fetchMonths calCache apiFetch cacheEnabled L = .ok (assoc, fetched) →
      ∀ ym ∈ L,
        (∀ e, (if cacheEnabled then calCache ym else none) = some e →
          monthLookup assoc ym = e) ∧
        ((if cacheEnabled then calCache ym else none) = none →
          ∃ r, apiFetch ym = .ok r ∧ monthLookup assoc ym = r) := by
  intro L
  induction L with
  | nil => intro assoc fetched h ym hym; simp at hym
  | cons ym0 rest ih =>
    intro assoc fetched h ym hym
    cases hc : (if cacheEnabled then calCache ym0 else none) with
    | some entryDays =>
      simp only [fetchMonths, hc] at h
      cases hr : fetchMonths calCache apiFetch cacheEnabled rest with
      | error e => rw [hr] at h; exact absurd h (by simp)
      | ok p =>
        obtain ⟨assoc', fetched'⟩ := p
        rw [hr] at h
        simp only [Except.ok.injEq, Prod.mk.injEq] at h
        obtain ⟨h1, h2⟩ := h
        subst h1; subst h2
        by_cases heq : ym = ym0
        · subst heq
          constructor
          · intro e he
            rw [hc] at he
            injection he with he
            subst he
            simp [monthLookup]
          · intro he
            rw [hc] at he
            exact absurd he (by simp)
        · have hym' : ym ∈ rest := by
            rw [List.mem_cons] at hym
            tauto
          have hlk : monthLookup ((ym0, entryDays) :: assoc') ym =
              monthLookup assoc' ym := by
            simp only [monthLookup, List.find?]
            rw [show ((ym0, entryDays).1 == ym) = false by
              simpa using fun hcontra => heq hcontra.symm]
          rw [hlk]
          exact ih assoc' fetched' hr ym hym'
    | none =>
      simp only [fetchMonths, hc] at h
      cases hapi : apiFetch ym0 with
      | error e => rw [hapi] at h; exact absurd h (by simp)
      | ok respDays =>
        rw [hapi] at h
        cases hr : fetchMonths calCache apiFetch cacheEnabled rest with
        | error e => rw [hr] at h; exact absurd h (by simp)
        | ok p =>
          obtain ⟨assoc', fetched'⟩ := p
          rw [hr] at h
          simp only [Except.ok.injEq, Prod.mk.injEq] at h
          obtain ⟨h1, h2⟩ := h
          subst h1; subst h2
          by_cases heq : ym = ym0
          · subst heq
            constructor
            · intro e he
              rw [hc] at he
              exact absurd he (by simp)
            · intro _
              exact ⟨respDays, hapi, by simp [monthLookup]⟩
          · have hym' : ym ∈ rest := by
              rw [List.mem_cons] at hym
              tauto
            have hlk : monthLookup ((ym0, respDays) :: assoc') ym =
                monthLookup assoc' ym := by
              simp only [monthLookup, List.find?]
              rw [show ((ym0, respDays).1 == ym) = false by
                simpa using fun hcontra => heq hcontra.symm]
            rw [hlk]
            exact ih assoc' fetched' hr ym hym'

/-- The assembly loop succeeds exactly when every requested day's index is
in range of its month's day list. -/
theorem assembleDays_ok_iff (start : GoTime)
    (assoc : List ((Int × Int) × List ApiData)) :
    ∀ idxs, (∃ ds, assembleDays start assoc idxs = .ok ds) ↔
      ∀ i ∈ idxs, dayInBounds start assoc i := by
  intro idxs
  induction idxs with
  | nil => simp [assembleDays]
  | cons i rest ih =>
    by_cases hb : (addDate start 0 0 i).day - 1 < 0 ∨
        ((monthLookup assoc (yearMonthOf (addDate start 0 0 i))).length : Int) ≤
          (addDate start 0 0 i).day - 1
    · simp only [assembleDays, if_pos hb]
      constructor
      · rintro ⟨ds, hds⟩
        exact absurd hds (by simp)
      · intro hall
        have := hall i (List.mem_cons_self i rest)
        unfold dayInBounds at this
        omega
    · simp only [assembleDays, if_neg hb]
      constructor
      · rintro ⟨ds, hds⟩
        intro j hj
        rw [List.mem_cons] at hj
        rcases hj with rfl | hj
        · unfold dayInBounds
          omega
        · cases hr : assembleDays start assoc rest with
          | error e => rw [hr] at hds; exact absurd hds (by simp)
          | ok ds' => exact (ih.mp ⟨ds', hr⟩) j hj
      · intro hall
        obtain ⟨ds', hds'⟩ := ih.mpr
          (fun j hj => hall j (List.mem_cons_of_mem i hj))
        exact ⟨dayFromIndex start assoc i :: ds', by rw [hds']⟩

/-- A successful assembly is exactly the per-index slices, in order. -/
theorem assembleDays_ok_map (start : GoTime)
    (assoc : List ((Int × Int) × List ApiData)) :
    ∀ idxs ds, assembleDays start assoc idxs = .ok ds →
      ds = idxs.map (dayFromIndex start assoc) := by
  intro idxs
  induction idxs with
  | nil =>
    intro ds h
    simp only [assembleDays, Except.ok.injEq] at h
    simp [← h]
  | cons i rest ih =>
    intro ds h
    by_cases hb : (addDate start 0 0 i).day - 1 < 0 ∨
        ((monthLookup assoc (yearMonthOf (addDate start 0 0 i))).length : Int) ≤
          (addDate start 0 0 i).day - 1
    · simp only [assembleDays, if_pos hb] at h
      exact absurd h (by simp)
    · simp only [assembleDays, if_neg hb] at h
      cases hr : assembleDays start assoc rest with
      | error e => rw [hr] at h; exact absurd h (by simp)
      | ok ds' =>
        rw [hr] at h
        injection h with h
        subst h
        simp [ih ds' hr]

/-- Claim C7: multi-day listing groups the `days` consecutive days into the
distinct `(year, month)` pairs (no duplicates, exactly the months of the
requested days); a successful month pass covers each needed month exactly
once, fetching from the API exactly the cache misses; each day is sliced out
of its month by the zero-based `d.Day() - 1` index (a success is exactly the
list of per-index slices, one per requested day); and when any requested
day's index is out of range, the whole operation returns a hard error, never
a silent skip or miss. -/
theorem C7_fetchCalendarDays_spec (start : GoTime) (days : Nat)
    (calCache : Int × Int → Option (List ApiData))
    (apiFetch : Int × Int → Except String (List ApiData))
    (cacheEnabled : Bool) :
    ((neededMonths start days).Nodup
      ∧ ∀ ym, ym ∈ neededMonths start days ↔
          ∃ i < days, yearMonthOf (addDate start 0 0 i) = ym)
    ∧ (∀ assoc fetched,
        fetchMonths calCache apiFetch cacheEnabled
            (neededMonths start days) = .ok (assoc, fetched) →
        assoc.map Prod.fst = neededMonths start days ∧
        fetched = (neededMonths start days).filter
          (fun ym => (if cacheEnabled then calCache ym else none).isNone) ∧
        fetched.Nodup)
    ∧ (∀ assoc fetched,
        fetchMonths calCache apiFetch cacheEnabled
            (neededMonths start days) = .ok (assoc, fetched) →
        ∀ ds, assembleDays start assoc (List.range days) = .ok ds →
          fetchCalendarDays start days calCache apiFetch cacheEnabled =
            .ok (ds, fetched) ∧
          ds = (List.range days).map (dayFromIndex start assoc))
    ∧ (∀ assoc fetched,
        fetchMonths calCache apiFetch cacheEnabled
            (neededMonths start days) = .ok (assoc, fetched) →
        ((∃ ds, assembleDays start assoc (List.range days) = .ok ds) ↔
          ∀ i ∈ List.range days, dayInBounds start assoc i)
        ∧ (¬ (∀ i ∈ List.range days, dayInBounds start assoc i) →
          ∃ msg, fetchCalendarDays start days calCache apiFetch
            cacheEnabled = .error msg)) := by
  refine ⟨⟨List.nodup_dedup _, ?_⟩, ?_, ?_, ?_⟩
  · intro ym
    rw [neededMonths, List.mem_dedup, List.mem_map]
    constructor
    · rintro ⟨i, hmem, heq⟩
      rw [List.mem_range] at hmem
      exact ⟨i, hmem, heq⟩
    · rintro ⟨i, hi, heq⟩
      exact ⟨i, List.mem_range.mpr hi, heq⟩
  · intro assoc fetched h
    obtain ⟨ha, hf⟩ := fetchMonths_ok calCache apiFetch cacheEnabled
      (neededMonths start days) assoc fetched h
    exact ⟨ha, hf, hf ▸ List.Nodup.filter _ (List.nodup_dedup _)⟩
  · intro assoc fetched h ds hds
    constructor
    · simp only [fetchCalendarDays, h, hds]
    · exact assembleDays_ok_map start assoc (List.range days) ds hds
  · intro assoc fetched h
    refine ⟨assembleDays_ok_iff start assoc (List.range days), ?_⟩
    intro hnot
    cases hasm : assembleDays start assoc (List.range days) with
    | error msg =>
      exact ⟨msg, by simp only [fetchCalendarDays, h, hasm]⟩
    | ok ds =>
      exact absurd ((assembleDays_ok_iff start assoc (List.range days)).mp
        ⟨ds, hasm⟩) hnot

/-- Witness for C7: one requested day (2026-02-28), a cache miss and a
successful API fetch of the 28-day February month; the result slices day
index 27 and reports the single API fetch. -/
theorem C7_witness :
    fetchCalendarDays ⟨2026, 2, 28, 0, 0, 0, 0, "UTC"⟩ 1
      (fun _ => none) (fun _ => Except.ok (List.replicate 28 default))
      true =
      Except.ok ([dayFromIndex ⟨2026, 2, 28, 0, 0, 0, 0, "UTC"⟩
        [((2026, 2), List.replicate 28 default)] 0], [(2026, 2)]) :=
  ((C7_fetchCalendarDays_spec ⟨2026, 2, 28, 0, 0, 0, 0, "UTC"⟩ 1
    (fun _ => none) (fun _ => Except.ok (List.replicate 28 default))
    true).2.2.1 [((2026, 2), List.replicate 28 default)] [(2026, 2)]
    rfl
    [dayFromIndex ⟨2026, 2, 28, 0, 0, 0, 0, "UTC"⟩
      [((2026, 2), List.replicate 28 default)] 0]
    rfl).1

end PrayerTimes
